import Mathlib

/-!
Verification development for the SecureGit-Hook repository
(`check_secrets.py`).  The Python source is shallowly embedded:

* a small model of Python `re` (parser + backtracking matcher with
  `findall` semantics) sufficient for every regular expression in
  `DEFAULT_CONFIG` — matching is fueled so that all definitions are
  executable and kernel-reducible;
* JSON values (`JVal`) and the three-pass configuration merge of
  `load_config`, including the aliasing of list values introduced by the
  shallow `DEFAULT_CONFIG.copy()` (an entry of the merged dict and the
  corresponding entry of the default table may denote the same mutable
  Python list; the model tracks this with an explicit alias flag and
  returns the post-call state of the default table);
* `check_prohibited_files`, `scan_file` and the driver `main`.
-/

namespace SecureGit

/-! ## Character and string helpers (kernel-friendly, over `List Char`) -/

/-- ASCII lower-casing on code points, used for `(?i)` matching. -/
def lowerN (n : Nat) : Nat := if 65 ≤ n ∧ n ≤ 90 then n + 32 else n

/-- ASCII upper-casing on code points. -/
def upperN (n : Nat) : Nat := if 97 ≤ n ∧ n ≤ 122 then n - 32 else n

/-- Pack a character list back into a string. -/
def strOf (cs : List Char) : String := ⟨cs⟩

/-- Substring of a character list: `len` characters starting at `pos`. -/
def listSub (s : List Char) (pos len : Nat) : String := strOf ((s.drop pos).take len)

/-- `suf` is a suffix of `s` (own implementation so that the kernel reduces it). -/
def listIsSuffix (suf s : List Char) : Bool := List.isPrefixOf suf.reverse s.reverse

/-- Python `str.endswith`. -/
def strEndsWith (s suf : String) : Bool := listIsSuffix suf.data s.data

/-- Python slicing `s[:-n]`. -/
def strDropRight (s : String) (n : Nat) : String := strOf (s.data.take (s.data.length - n))

/-- Split a character list at newline characters (Python `content.split("\n")`). -/
def splitNl : List Char → List (List Char)
  | [] => [[]]
  | c :: rest =>
    match splitNl rest with
    | [] => [[]]
    | l :: ls => if c = '\n' then [] :: l :: ls else (c :: l) :: ls

/-- The lines of a string, Python `content.split("\n")`. -/
def strLines (s : String) : List String := (splitNl s.data).map strOf

/-- `os.path.basename` for POSIX paths: the part after the last `/`. -/
def basename (p : String) : String :=
  strOf ((p.data.reverse.takeWhile (fun c => c ≠ '/')).reverse)

/-! ## A model of Python `re` (the subset used by the repository)

Regular expressions are parsed from their string form, as in the source,
where `re.findall`/`re.match` receive pattern strings.  The matcher
enumerates candidate matches in exactly Python's backtracking preference
order (alternation: left first; quantifiers: greedy), so the head of the
enumeration is the match Python reports.  A fuel argument makes the
functions structurally recursive; the fuel bounds below exceed the depth
of any backtracking path, since every path either descends into a strict
subexpression or advances the position in the subject string. -/

/-- One item of a character class `[...]`: a literal, a range, or a
Perl class (`\s`/`\w`/`\d`, possibly negated as `\S`/`\W`/`\D`). -/
inductive ClsItem where
  | single (c : Char)
  | range (lo hi : Char)
  | perl (k : Char) (neg : Bool)
  deriving Repr, DecidableEq

/-- Regular-expression abstract syntax.  `{m,n}` quantifiers are
desugared by the parser into `cat`/`alt`/`star`;  `(?:...)` leaves no
node;  `group` is a numbered capturing group. -/
inductive Re where
  | eps
  | chr (c : Char)
  | any
  | cls (neg : Bool) (items : List ClsItem)
  | cat (a b : Re)
  | alt (a b : Re)
  | star (r : Re)
  | group (idx : Nat) (r : Re)
  | bol
  | eol
  deriving Repr, DecidableEq

/-- Does code point `n` satisfy a Perl class? -/
def perlHit (k : Char) (n : Nat) : Bool :=
  if k = 's' then n = 32 || n = 9 || n = 10 || n = 13 || n = 12 || n = 11
  else if k = 'd' then 48 ≤ n && n ≤ 57
  else (48 ≤ n && n ≤ 57) || (65 ≤ n && n ≤ 90) || (97 ≤ n && n ≤ 122) || n = 95

/-- Does code point `n` satisfy one class item? -/
def itemHit (it : ClsItem) (n : Nat) : Bool :=
  match it with
  | .single c => n = c.toNat
  | .range lo hi => lo.toNat ≤ n && n ≤ hi.toNat
  | .perl k neg => if perlHit k n then !neg else neg

/-- Character-class membership, honouring `(?i)` by also testing the
case-swapped code point (CPython's ASCII `IGNORECASE` behaviour). -/
def clsHit (ci neg : Bool) (items : List ClsItem) (c : Char) : Bool :=
  let n := c.toNat
  let base := fun (m : Nat) => items.any (fun it => itemHit it m)
  let hit := base n || (ci && (base (lowerN n) || base (upperN n)))
  if neg then !hit else hit

/-- Literal-character test, honouring `(?i)`. -/
def chrHit (ci : Bool) (c d : Char) : Bool :=
  d.toNat = c.toNat || (ci && lowerN d.toNat = lowerN c.toNat)

/-- Captured groups of one candidate match: `(index, text)` pairs, most
recent assignment first (lookup takes the first occurrence). -/
abbrev Caps := List (Nat × String)

/-- Structural size of a regex, used to compute sufficient fuel. -/
def reSize : Re → Nat
  | .eps | .chr _ | .any | .cls _ _ | .bol | .eol => 1
  | .cat a b => reSize a + reSize b + 1
  | .alt a b => reSize a + reSize b + 1
  | .star r => reSize r + 1
  | .group _ r => reSize r + 1

/-- All candidate matches of `r` in `s` starting at position `pos`, as
`(consumed characters, captures)`, in Python's backtracking preference
order: the head is the match `re` reports.  `star` only iterates on
bodies that consumed at least one character (none of the repository's
patterns repeats a nullable body, and CPython likewise refuses to repeat
an empty match). -/
def amatch (ci : Bool) (s : List Char) : Nat → Re → Nat → List (Nat × Caps)
  | 0, _, _ => []
  | fuel + 1, r, pos =>
    match r with
    | .eps => [(0, [])]
    | .chr c =>
      match s.get? pos with
      | some d => if chrHit ci c d then [(1, [])] else []
      | none => []
    | .any =>
      match s.get? pos with
      | some d => if d.toNat ≠ 10 then [(1, [])] else []
      | none => []
    | .cls neg items =>
      match s.get? pos with
      | some d => if clsHit ci neg items d then [(1, [])] else []
      | none => []
    | .bol => if pos = 0 then [(0, [])] else []
    | .eol =>
      if pos = s.length || (pos + 1 = s.length && s.get? pos = some '\n') then [(0, [])] else []
    | .cat a b =>
      (amatch ci s fuel a pos).flatMap (fun d1 =>
        (amatch ci s fuel b (pos + d1.1)).map (fun d2 => (d1.1 + d2.1, d2.2 ++ d1.2)))
    | .alt a b => amatch ci s fuel a pos ++ amatch ci s fuel b pos
    | .star r =>
      ((amatch ci s fuel r pos).filter (fun d => d.1 ≠ 0)).flatMap (fun d1 =>
        (amatch ci s fuel (.star r) (pos + d1.1)).map (fun d2 => (d1.1 + d2.1, d2.2 ++ d1.2)))
      ++ [(0, [])]
    | .group idx r =>
      (amatch ci s fuel r pos).map (fun d => (d.1, (idx, listSub s pos d.1) :: d.2))

/-- Fuel sufficient for `amatch` on regex `r` over subject `s`. -/
def matchFuel (r : Re) (s : List Char) : Nat := (reSize r + 2) * (s.length + 3)

/-- Python's preferred match of `r` at exactly position `pos` (used by
`re.match` when `pos = 0`). -/
def matchAt (ci : Bool) (s : List Char) (r : Re) (pos : Nat) : Option (Nat × Caps) :=
  (amatch ci s (matchFuel r s) r pos).head?

/-- Leftmost match at a position `≥ pos` (`re.search` semantics):
`(start, consumed, captures)`. -/
def searchAt (ci : Bool) (s : List Char) (r : Re) : Nat → Nat → Option (Nat × Nat × Caps)
  | 0, _ => none
  | fuel + 1, pos =>
    match matchAt ci s r pos with
    | some (d, cp) => some (pos, d, cp)
    | none => if pos < s.length then searchAt ci s r fuel (pos + 1) else none

/-- All non-overlapping matches from position `pos` on, leftmost first
(`re.findall` iteration: after an empty match the scan advances by one
character). -/
def findallAt (ci : Bool) (s : List Char) (r : Re) : Nat → Nat → List (Nat × Nat × Caps)
  | 0, _ => []
  | fuel + 1, pos =>
    if pos > s.length then []
    else
      match searchAt ci s r (s.length + 1 - pos) pos with
      | none => []
      | some (st, d, cp) =>
        (st, d, cp) :: findallAt ci s r fuel (if d = 0 then st + 1 else st + d)

/-! ### Parsing pattern strings -/

/-- `n`-fold repetition `r{n}` as iterated concatenation. -/
def repExact (r : Re) : Nat → Re
  | 0 => .eps
  | n + 1 => .cat r (repExact r n)

/-- Greedy `r{0,n}`. -/
def repUpTo (r : Re) : Nat → Re
  | 0 => .eps
  | n + 1 => .alt (.cat r (repUpTo r n)) .eps

/-- Parse a decimal number from the head of the input. -/
def parseNum : List Char → Option (Nat × List Char)
  | c :: rest =>
    if '0'.toNat ≤ c.toNat ∧ c.toNat ≤ '9'.toNat then
      let rec go (acc : Nat) : List Char → Nat × List Char
        | d :: more =>
          if '0'.toNat ≤ d.toNat ∧ d.toNat ≤ '9'.toNat then
            go (acc * 10 + (d.toNat - 48)) more
          else (acc, d :: more)
        | [] => (acc, [])
      some (go (c.toNat - 48) rest)
    else none
  | [] => none

/-- Parse the inside of a brace quantifier `{m}`, `{m,}`, `{m,n}` or
`{,n}` (after the opening brace): returns `(min, max?)`. -/
def parseBrace (cs : List Char) : Option (Nat × Option Nat × List Char) :=
  match parseNum cs with
  | some (lo, rest) =>
    match rest with
    | '}' :: rest2 => some (lo, some lo, rest2)
    | ',' :: rest2 =>
      match rest2 with
      | '}' :: rest3 => some (lo, none, rest3)
      | _ =>
        match parseNum rest2 with
        | some (hi, '}' :: rest3) => some (lo, some hi, rest3)
        | _ => none
    | _ => none
  | none =>
    match cs with
    | ',' :: rest =>
      match parseNum rest with
      | some (hi, '}' :: rest2) => some (0, some hi, rest2)
      | _ => none
    | _ => none

/-- Apply a postfix quantifier to a parsed atom, if one follows.  An
opening brace that does not form a valid quantifier is left in place
(CPython then treats it as a literal).  `{m,n}` with `n < m` is a
pattern error (`none`). -/
def applyQuant (r : Re) (cs : List Char) : Option (Re × List Char) :=
  match cs with
  | '*' :: rest => some (.star r, rest)
  | '+' :: rest => some (.cat r (.star r), rest)
  | '?' :: rest => some (.alt r .eps, rest)
  | '{' :: rest =>
    match parseBrace rest with
    | some (lo, none, rest2) => some (.cat (repExact r lo) (.star r), rest2)
    | some (lo, some hi, rest2) =>
      if hi < lo then none
      else some (.cat (repExact r lo) (repUpTo r (hi - lo)), rest2)
    | none => some (r, cs)
  | _ => some (r, cs)

/-- Body of a character class, after the optional `^`:  literals,
ranges, escapes;  a `-` before the closing bracket is a literal. -/
def parseClsBody : Nat → List Char → Option (List ClsItem × List Char)
  | 0, _ => none
  | fuel + 1, cs =>
    match cs with
    | [] => none
    | ']' :: rest => some ([], rest)
    | '\\' :: c :: rest =>
      let it? : Option ClsItem :=
        if c = 's' then some (.perl 's' false)
        else if c = 'w' then some (.perl 'w' false)
        else if c = 'd' then some (.perl 'd' false)
        else if c = 'S' then some (.perl 's' true)
        else if c = 'W' then some (.perl 'w' true)
        else if c = 'D' then some (.perl 'd' true)
        else if c.isAlphanum then none
        else some (.single c)
      match it? with
      | some it =>
        match parseClsBody fuel rest with
        | some (items, rest2) => some (it :: items, rest2)
        | none => none
      | none => none
    | c :: '-' :: ']' :: rest => some ([.single c, .single '-'], rest)
    | c :: '-' :: d :: rest =>
      if d = '\\' then none
      else if c.toNat ≤ d.toNat then
        match parseClsBody fuel rest with
        | some (items, rest2) => some (.range c d :: items, rest2)
        | none => none
      else none
    | c :: rest =>
      match parseClsBody fuel rest with
      | some (items, rest2) => some (.single c :: items, rest2)
      | none => none

/-- A character class after the opening bracket. -/
def parseCls (cs : List Char) : Option (Bool × List ClsItem × List Char) :=
  match cs with
  | '^' :: rest => (parseClsBody (rest.length + 1) rest).map (fun p => (true, p.1, p.2))
  | _ => (parseClsBody (cs.length + 1) cs).map (fun p => (false, p.1, p.2))

/-- Parser level: alternation, sequence, or single atom. -/
inductive PMode where
  | palt
  | pseq
  | patom
  deriving Repr

/-- Recursive-descent pattern parser.  `g` is the running count of
capturing groups;  returns the parsed node, the updated count and the
unconsumed input. -/
def parseP : Nat → PMode → Nat → List Char → Option (Re × Nat × List Char)
  | 0, _, _, _ => none
  | fuel + 1, m, g, cs =>
    match m with
    | .palt =>
      match parseP fuel .pseq g cs with
      | none => none
      | some (r, g1, rest) =>
        match rest with
        | '|' :: rest2 =>
          match parseP fuel .palt g1 rest2 with
          | some (r2, g2, rest3) => some (.alt r r2, g2, rest3)
          | none => none
        | _ => some (r, g1, rest)
    | .pseq =>
      match cs with
      | [] => some (.eps, g, [])
      | '|' :: _ => some (.eps, g, cs)
      | ')' :: _ => some (.eps, g, cs)
      | _ =>
        match parseP fuel .patom g cs with
        | none => none
        | some (r1, g1, rest) =>
          match applyQuant r1 rest with
          | none => none
          | some (r1q, rest2) =>
            match parseP fuel .pseq g1 rest2 with
            | none => none
            | some (r2, g2, rest3) => some (.cat r1q r2, g2, rest3)
    | .patom =>
      match cs with
      | [] => none
      | '(' :: '?' :: ':' :: rest =>
        match parseP fuel .palt g rest with
        | some (r, g1, ')' :: rest2) => some (r, g1, rest2)
        | _ => none
      | '(' :: '?' :: _ => none
      | '(' :: rest =>
        match parseP fuel .palt (g + 1) rest with
        | some (r, g1, ')' :: rest2) => some (.group (g + 1) r, g1, rest2)
        | _ => none
      | '[' :: rest =>
        match parseCls rest with
        | some (neg, items, rest2) => some (.cls neg items, g, rest2)
        | none => none
      | '.' :: rest => some (.any, g, rest)
      | '^' :: rest => some (.bol, g, rest)
      | '$' :: rest => some (.eol, g, rest)
      | '*' :: _ => none
      | '+' :: _ => none
      | '?' :: _ => none
      | ')' :: _ => none
      | '|' :: _ => none
      | '\\' :: c :: rest =>
        if c = 's' then some (.cls false [.perl 's' false], g, rest)
        else if c = 'w' then some (.cls false [.perl 'w' false], g, rest)
        else if c = 'd' then some (.cls false [.perl 'd' false], g, rest)
        else if c = 'S' then some (.cls false [.perl 's' true], g, rest)
        else if c = 'W' then some (.cls false [.perl 'w' true], g, rest)
        else if c = 'D' then some (.cls false [.perl 'd' true], g, rest)
        else if c.isAlphanum then none
        else some (.chr c, g, rest)
      | '\\' :: [] => none
      | c :: rest => some (.chr c, g, rest)

/-- Compile a pattern string: the regex, the `(?i)` flag, and the number
of capturing groups.  `none` models `re.error` (a malformed pattern). -/
def parseRe (pat : String) : Option (Re × Bool × Nat) :=
  let cs := pat.data
  let p : Bool × List Char :=
    match cs with
    | '(' :: '?' :: 'i' :: ')' :: rest => (true, rest)
    | _ => (false, cs)
  match parseP (4 * p.2.length + 16) .palt 0 p.2 with
  | some (r, g, []) => some (r, p.1, g)
  | _ => none

/-- The value the scanner stores for one `re.findall` hit, as in
`scan_file`: the whole match when the pattern has no capturing group,
otherwise the first group (Python returns the group — or the tuple of
groups, of which `scan_file` keeps element 0 — and `""` when the group
did not participate). -/
def hitValue (s : List Char) (ng : Nat) (st d : Nat) (cp : Caps) : String :=
  if ng = 0 then listSub s st d
  else ((cp.find? (fun q => q.1 = 1)).map Prod.snd).getD ""

/-- `re.findall(pat, line)` as used by `scan_file`, reduced to the
extracted string values;  `none` models `re.error`. -/
def pyFindall (pat line : String) : Option (List String) :=
  match parseRe pat with
  | none => none
  | some (r, ci, ng) =>
    let s := line.data
    some ((findallAt ci s r (s.length + 2) 0).map (fun t => hitValue s ng t.1 t.2.1 t.2.2))

/-- `re.match(pat, s) is not None`;  `none` models `re.error`. -/
def pyMatch (pat s : String) : Option Bool :=
  match parseRe pat with
  | none => none
  | some (r, ci, _) => some (matchAt ci s.data r 0).isSome

/-- `re.search(pat, s) is not None`;  `none` models `re.error`. -/
def pySearch (pat s : String) : Option Bool :=
  match parseRe pat with
  | none => none
  | some (r, ci, _) => some (searchAt ci s.data r (s.data.length + 1) 0).isSome

/-! ## JSON values and dictionaries -/

/-- A JSON value, as produced by `json.load`. -/
inductive JVal where
  | bool (b : Bool)
  | num (n : Int)
  | str (s : String)
  | list (xs : List JVal)
  | obj (kvs : List (String × JVal))
  deriving Repr

/-- Structural equality of JSON values, Python `==`. -/
def JVal.beq : JVal → JVal → Bool
  | .bool a, .bool b => a == b
  | .num a, .num b => a == b
  | .str a, .str b => a == b
  | .list xs, .list ys => beqL xs ys
  | .obj xs, .obj ys => beqO xs ys
  | _, _ => false
where
  beqL : List JVal → List JVal → Bool
    | [], [] => true
    | x :: xs, y :: ys => JVal.beq x y && beqL xs ys
    | _, _ => false
  beqO : List (String × JVal) → List (String × JVal) → Bool
    | [], [] => true
    | (k, x) :: xs, (l, y) :: ys => k == l && JVal.beq x y && beqO xs ys
    | _, _ => false

/-- A JSON object / Python dict, in insertion order with unique keys. -/
abbrev Dict := List (String × JVal)

/-- `d[k]` lookup (first occurrence). -/
def dictGet (d : Dict) (k : String) : Option JVal :=
  ((d.find? (fun e => e.1 = k)).map Prod.snd)

/-- `k in d`. -/
def dictHas (d : Dict) (k : String) : Bool := (dictGet d k).isSome

/-- Python truthiness of a JSON value (`if not config["enabled"]`). -/
def jTruthy : JVal → Bool
  | .bool b => b
  | .num n => n ≠ 0
  | .str s => s ≠ ""
  | .list xs => !xs.isEmpty
  | .obj kvs => !kvs.isEmpty

/-- The strings of a JSON list value (every list field of the default
configuration holds only strings). -/
def jStrList : JVal → List String
  | .list xs => xs.filterMap (fun v => match v with | .str s => some s | _ => none)
  | _ => []

/-- Python `x in l` for a JSON list value and a string. -/
def jHasStr (v : JVal) (s : String) : Bool :=
  match v with
  | .list xs => xs.any (fun x => JVal.beq x (.str s))
  | _ => false

/-! ## The Pattern Catalog: `DEFAULT_CONFIG` from `check_secrets.py` -/

/-- `DEFAULT_CONFIG["valid_extensions"]`. -/
def defaultValidExtensions : List String :=
  [".py", ".js", ".ts", ".go", ".env", ".json", ".yaml", ".yml", ".xml",
   ".conf", ".ini", ".toml", ".rb", ".php"]

/-- `DEFAULT_CONFIG["prohibited_files"]`. -/
def defaultProhibitedFiles : List String :=
  [".env", ".env.local", ".env.development", ".env.test", ".env.production",
   "credentials.json", "config.local.json", "secrets.yaml", ".htpasswd",
   "id_rsa", "id_dsa", ".keystore", ".p12", ".pfx", "oauth_token.json",
   "service-account.json"]

/-- `DEFAULT_CONFIG["prohibited_patterns"]`. -/
def defaultProhibitedPatterns : List String :=
  [".*\\.pem$", ".*\\.key$", ".*\\.pkcs12$", ".*\\.jks$",
   ".*secret.*\\.json$", ".*password.*\\.txt$", ".*credential.*\\.json$",
   ".*\\.keystore$"]

/-- `DEFAULT_CONFIG["patterns"]`: the built-in content patterns, in
source order (Python raw strings transcribed verbatim). -/
def defaultPatterns : List String :=
  ["API_KEY\\s*=\\s*[\"\x27].*[\"\x27]",
   "SECRET\\s*=\\s*[\"\x27].*[\"\x27]",
   "PASSWORD\\s*=\\s*[\"\x27].*[\"\x27]",
   "TOKEN\\s*=\\s*[\"\x27].*[\"\x27]",
   "PASSW(OR)?D\\s*=\\s*[\"\x27].*[\"\x27]",
   "PWD\\s*=\\s*[\"\x27].*[\"\x27]",
   "PASSWD\\s*=\\s*[\"\x27].*[\"\x27]",
   "KEY\\s*=\\s*[\"\x27].*[\"\x27]",
   "APIKEY\\s*=\\s*[\"\x27].*[\"\x27]",
   "AUTH\\s*=\\s*[\"\x27].*[\"\x27]",
   "CREDENTIAL\\s*=\\s*[\"\x27].*[\"\x27]",
   "PRIVATE_KEY\\s*=\\s*[\"\x27].*[\"\x27]",
   "(access|secret|api|auth|client|token)[-._]?(key|secret|token|id|password)[\\s=:]+[\"\x27]?[A-Za-z0-9+/]\x7b8,\x7d[\"\x27]?",
   "(AKIA|A3T|AGPA|AIDA|AROA|AIPA|ANPA|ANVA|ASIA)[A-Z0-9]\x7b12,\x7d",
   "aws[._-]?access[._-]?key[._-]?id\\s*=\\s*[\"\x27]?\\w+[\"\x27]?",
   "aws[._-]?secret[._-]?access[._-]?key\\s*=\\s*[\"\x27]?\\w+[\"\x27]?",
   "aws[._-]?account[._-]?id\\s*=\\s*[\"\x27]?\\d+[\"\x27]?",
   "(?i)(jdbc|mongodb(\\+srv)?|mysql|postgres|postgresql|mssql|sqlite|redis|oracle):\\/\\/[a-zA-Z0-9]+:[^@]+@",
   "(?i)mongodb[+:].*(?:username|password).*:",
   "(?i)(host|server|db|database|username|user|uid|password|pwd|passwd)[\\s=:]",
   "(?i)connection[._-]string\\s*=\\s*[\"\x27].*[\"\x27]",
   "gh[pousr]_[A-Za-z0-9_]\x7b16,\x7d",
   "sk_live_[0-9a-zA-Z]\x7b24,\x7d",
   "rk_live_[0-9a-zA-Z]\x7b24,\x7d",
   "sq0atp-[0-9A-Za-z\\-_]\x7b22\x7d",
   "sq0csp-[0-9A-Za-z\\-_]\x7b43\x7d",
   "access_token\\$production\\$[0-9a-z]\x7b16\x7d\\$[0-9a-f]\x7b32\x7d",
   "amzn\\.mws\\.[0-9a-f]\x7b8\x7d-[0-9a-f]\x7b4\x7d-[0-9a-f]\x7b4\x7d-[0-9a-f]\x7b4\x7d-[0-9a-f]\x7b12\x7d",
   "EAACEdEose0cBA[0-9A-Za-z]+",
   "AIza[0-9A-Za-z\\-_]\x7b35\x7d",
   "ya29\\.[0-9A-Za-z\\-_]+",
   "sk-[A-Za-z0-9]\x7b32,\x7d",
   "ey[A-Za-z0-9_-]\x7b10,\x7d\\.[A-Za-z0-9._-]\x7b10,\x7d\\.[A-Za-z0-9_-]\x7b10,\x7d",
   "-----BEGIN [A-Z ]+ PRIVATE KEY( BLOCK)?-----",
   "-----BEGIN CERTIFICATE-----",
   "xox[pboa]-[0-9]\x7b12\x7d-[0-9]\x7b12\x7d-[0-9]\x7b12\x7d-[a-z0-9]\x7b32\x7d",
   "[h|H][e|E][r|R][o|O][k|K][u|U].*[0-9A-F]\x7b8\x7d-[0-9A-F]\x7b4\x7d-[0-9A-F]\x7b4\x7d-[0-9A-F]\x7b4\x7d-[0-9A-F]\x7b12\x7d",
   "(?i)(encryption|cipher|aes|rsa)[._-]?key\\s*=\\s*[\"\x27].*[\"\x27]",
   "SK[0-9a-fA-F]\x7b32\x7d",
   "AC[a-z0-9]\x7b32\x7d",
   "ssh-rsa AAAA[0-9A-Za-z+/]+[=]\x7b0,3\x7d",
   "(?i)(api|secret|private|token|auth|key)[\\s=:]+[\"\x27]?[a-zA-Z0-9+/]\x7b32,\x7d[=]\x7b0,2\x7d[\"\x27]?"]

/-- `DEFAULT_CONFIG` as a JSON object. -/
def DEFAULT_CONFIG : Dict :=
  [("enabled", .bool true),
   ("valid_extensions", .list (defaultValidExtensions.map .str)),
   ("prohibited_files", .list (defaultProhibitedFiles.map .str)),
   ("prohibited_patterns", .list (defaultProhibitedPatterns.map .str)),
   ("patterns", .list (defaultPatterns.map .str))]

/-! ## The Config Resolver: `load_config`

`load_config` starts from `config = DEFAULT_CONFIG.copy()` — a shallow
copy, so each entry of `config` initially references the same list
object as the corresponding entry of the module-level `DEFAULT_CONFIG`.
The direct and exclusion passes rebind `config[key]` to a fresh object,
but the expansion pass calls `config[base_key].extend(value)`, a
mutation of the referenced object: when the entry still aliases the
default table, `DEFAULT_CONFIG` itself is mutated.  The model threads an
alias flag per entry and returns both the merged configuration and the
post-call state of the default table. -/

/-- A dict entry during merging: key, value, and whether the value still
aliases the corresponding entry of the default table. -/
abbrev MDict := List (String × JVal × Bool)

/-- Mark every entry of the shallow copy as aliasing the defaults. -/
def toAliased (d : Dict) : MDict := d.map (fun e => (e.1, e.2, true))

/-- Lookup in a merging dict. -/
def mGet (m : MDict) (k : String) : Option (JVal × Bool) :=
  (m.find? (fun e => e.1 = k)).map (fun e => e.2)

/-- Rebinding / in-place update of an existing key (no-op when absent;
all three passes guard on key presence as the source does). -/
def mSet : MDict → String → JVal → Bool → MDict
  | [], _, _, _ => []
  | e :: rest, k, v, al => if e.1 = k then (k, v, al) :: rest else e :: mSet rest k v al

/-- One step of pass 1 (direct replacement): `config[key] = value` when
the key carries no reserved suffix and exists in the base;  the entry
now references the override document's object (alias flag cleared). -/
def dStep (m : MDict) (e : String × JVal) : MDict :=
  if !strEndsWith e.1 "_exclude" && !strEndsWith e.1 "_expand" && (mGet m e.1).isSome
  then mSet m e.1 e.2 false
  else m

/-- One step of pass 2 (exclusion): for a list-valued
`key = base + "_exclude"` whose base holds a list, rebind `config[base]`
to a fresh list without the excluded items (alias flag cleared -- the
list comprehension builds a new object). -/
def eStep (m : MDict) (e : String × JVal) : MDict :=
  match e.2 with
  | .list excl =>
    if strEndsWith e.1 "_exclude" then
      match mGet m (strDropRight e.1 8) with
      | some (.list bl, _) =>
        mSet m (strDropRight e.1 8)
          (.list (bl.filter (fun item => !excl.any (JVal.beq item)))) false
      | _ => m
    else m
  | _ => m

/-- One step of pass 3 (expansion): for a list-valued
`key = base + "_expand"` whose base holds a list,
`config[base].extend(value)` -- an in-place mutation, so the alias flag
is preserved:  an entry that still references the default table mutates
the default list. -/
def xStep (m : MDict) (e : String × JVal) : MDict :=
  match e.2 with
  | .list ext =>
    if strEndsWith e.1 "_expand" then
      match mGet m (strDropRight e.1 7) with
      | some (.list bl, al) => mSet m (strDropRight e.1 7) (.list (bl ++ ext)) al
      | _ => m
    else m
  | _ => m

/-- Pass 1 over the whole override document. -/
def passDirect (m : MDict) (doc : Dict) : MDict := doc.foldl dStep m

/-- Pass 2 over the whole override document. -/
def passExclude (m : MDict) (doc : Dict) : MDict := doc.foldl eStep m

/-- Pass 3 over the whole override document. -/
def passExpand (m : MDict) (doc : Dict) : MDict := doc.foldl xStep m

/-- Merge one parsed override document into the default table: result is
`(merged configuration, default table after the call)` — the second
component differs from `defaults` exactly when an expansion extended an
entry that still aliased it. -/
def mergeDoc (defaults : Dict) (doc : Dict) : Dict × Dict :=
  let m := passExpand (passExclude (passDirect (toAliased defaults) doc) doc) doc
  (m.map (fun e => (e.1, e.2.1)),
   defaults.map (fun e =>
     match mGet m e.1 with
     | some (v, true) => (e.1, v)
     | _ => e))

/-- What probing one candidate config path can yield: no file, a file
that is not valid JSON (`json.JSONDecodeError`), another I/O error, or a
parsed document. -/
inductive Candidate where
  | missing
  | badJson
  | ioError
  | parsed (doc : Dict)

/-- `load_config`, over the outcomes of probing the candidate paths in
order.  A parse or I/O failure prints a warning and falls through to the
next candidate;  the first successfully parsed document is merged and
the loop breaks.  Returns `(config, default table after the call)`. -/
def loadConfig (defaults : Dict) : List Candidate → Dict × Dict
  | [] => (defaults, defaults)
  | .missing :: rest => loadConfig defaults rest
  | .badJson :: rest => loadConfig defaults rest
  | .ioError :: rest => loadConfig defaults rest
  | .parsed doc :: _ => mergeDoc defaults doc

/-! ## The Scan Engine: `check_prohibited_files`, `scan_file`, `main` -/

/-- A content finding of `scan_file`: 1-based line number and the
extracted match value. -/
abbrev Finding := Nat × String

/-- The prohibited-pattern loop of `check_prohibited_files` for one
file: the patterns in order, stopping at the first that matches at the
start of the path (`re.match`).  A malformed prohibited pattern reached
here raises `re.error`, which no caller catches — modelled as
`Except.error` carrying the pattern. -/
def prohibitScan (file : String) : List String → Except String (Option String)
  | [] => .ok none
  | p :: rest =>
    match pyMatch p file with
    | none => .error p
    | some true => .ok (some "File matches prohibited pattern")
    | some false => prohibitScan file rest

/-- `check_prohibited_files` body for one file: exact basename match
first (then `continue`), else the prohibited patterns. -/
def prohibitReason (pFilesVal : JVal) (pPats : List String) (file : String) :
    Except String (Option String) :=
  if jHasStr pFilesVal (basename file) then .ok (some "File should not be committed")
  else prohibitScan file pPats

/-- The file loop of `check_prohibited_files`, collecting
`(file, reason)` hits in order. -/
def prohibitAll (pFilesVal : JVal) (pPats : List String) :
    List String → Except String (List (String × String))
  | [] => .ok []
  | f :: rest =>
    match prohibitReason pFilesVal pPats f with
    | .error p => .error p
    | .ok none => prohibitAll pFilesVal pPats rest
    | .ok (some reason) =>
      match prohibitAll pFilesVal pPats rest with
      | .error p => .error p
      | .ok hits => .ok ((f, reason) :: hits)

/-- `check_prohibited_files(files, config)`. -/
def checkProhibitedFiles (files : List String) (config : Dict) :
    Except String (List (String × String)) :=
  prohibitAll ((dictGet config "prohibited_files").getD (.list []))
    (jStrList ((dictGet config "prohibited_patterns").getD (.list []))) files

/-- The warning `scan_file` prints from its `except` handler,
`f"Could not read {filepath}: {e}"`. -/
def readWarn (fp e : String) : String := "Could not read " ++ fp ++ ": " ++ e

/-- The inner pattern loop of `scan_file` on one line: each
`re.findall` appends its hits to the accumulated findings;  a malformed
pattern raises `re.error`, modelled as an error carrying the findings
accumulated so far and the offending pattern. -/
def scanLinePats : String → Nat → List String → List Finding →
    Except (List Finding × String) (List Finding)
  | _, _, [], acc => .ok acc
  | line, ln, p :: rest, acc =>
    match pyFindall p line with
    | none => .error (acc, p)
    | some vs => scanLinePats line ln rest (acc ++ vs.map (fun v => (ln, v)))

/-- The line loop of `scan_file`, threading the findings accumulator and
the 1-based line counter. -/
def scanLines : List String → Nat → List String → List Finding →
    Except (List Finding × String) (List Finding)
  | [], _, _, acc => .ok acc
  | line :: more, ln, pats, acc =>
    match scanLinePats line ln pats acc with
    | .error e => .error e
    | .ok acc2 => scanLines more (ln + 1) pats acc2

/-- `scan_file(filepath, patterns)`:  the whole body runs under one
`try`;  any failure — the read itself (`rd = .error`) or a malformed
pattern — is caught, a warning is printed, and the findings accumulated
before the failure are returned.  Result: `(findings, warnings)`. -/
def scanFile (fp : String) (rd : Except String String) (pats : List String) :
    List Finding × List String :=
  match rd with
  | .error e => ([], [readWarn fp e])
  | .ok content =>
    match scanLines (strLines content) 1 pats [] with
    | .ok fs => (fs, [])
    | .error (sofar, p) => (sofar, [readWarn fp ("re.error in pattern " ++ p)])

/-- The per-file loop of `main` (lines 271–277): scan each file, keep
`(file, findings)` for files with at least one finding, and collect the
warnings in order. -/
def contentScanAll (files : List String) (pats : List String)
    (reads : String → Except String String) :
    List (String × List Finding) × List String :=
  match files with
  | [] => ([], [])
  | f :: rest =>
    let r := scanFile f (reads f) pats
    let t := contentScanAll rest pats reads
    (if r.1.isEmpty then t.1 else (f, r.1) :: t.1, r.2 ++ t.2)

/-- Observable outcome of one run of `main` (exit status 0 also stands
for falling off the end of `main`).  `scanned` lists the files whose
content scan was attempted;  `crashed` records an uncaught exception
(a malformed prohibited pattern), which CPython turns into exit 1. -/
structure Outcome where
  exitCode : Nat
  disabled : Bool
  crashed : Bool
  prohibited : List (String × String)
  findings : List (String × List Finding)
  warnings : List String
  scanned : List String
  deriving Repr

/-- `main()`, given the resolved configuration, the staged file list
(the output of `get_staged_files`, an external collaborator) and the
filesystem contents. -/
def mainRun (config : Dict) (files : List String)
    (reads : String → Except String String) : Outcome :=
  if !jTruthy ((dictGet config "enabled").getD (.bool false)) then
    ⟨0, true, false, [], [], [], []⟩
  else if files.isEmpty then
    ⟨0, false, false, [], [], [], []⟩
  else
    match checkProhibitedFiles files config with
    | .error _ => ⟨1, false, true, [], [], [], []⟩
    | .ok hits =>
      if !hits.isEmpty then ⟨1, false, false, hits, [], [], []⟩
      else
        let exts := jStrList ((dictGet config "valid_extensions").getD (.list []))
        let pats := jStrList ((dictGet config "patterns").getD (.list []))
        let toScan := files.filter (fun f => exts.any (fun e => strEndsWith f e))
        let r := contentScanAll toScan pats reads
        ⟨if r.1.isEmpty then 0 else 1, false, false, [], r.1, r.2, toScan⟩

/-- One whole invocation: resolve the configuration from the candidate
config paths, then run `main` (the returned default-table state is
dropped — a single run reads it only once). -/
def fullRun (cands : List Candidate) (files : List String)
    (reads : String → Except String String) : Outcome :=
  mainRun (loadConfig DEFAULT_CONFIG cands).1 files reads

/-! ## The Allowlist Resolver (spec §3, §4.3–4.4)

No allowlist of any granularity exists in `src/`:  `check_secrets.py`
has no `allowlist` configuration field and neither
`check_prohibited_files` nor `scan_file` consults one.  The definitions
below are therefore modelled from the spec, not from the source, and
are used only for the claims that speak about allowlist suppression. -/

/-- Modelled from the spec: the `Allowlist` record of §3 — four
independent suppression lists (files, path prefixes-or-regexes,
`"path:line"` entries, and regexes over matched text);  absent from
`src/`. -/
structure Allowlist where
  files : List String
  paths : List String
  lines : List String
  patterns : List String

/-- Modelled from the spec: `isSuppressed` of §4.3 — the four checks in
order, OR-combined, short-circuiting on the first that fires;  a `paths`
entry suppresses as a literal prefix or as a regex matched at the start
of the path;  absent from `src/`.  (A `paths` or `patterns` entry that
fails to compile simply does not fire.) -/
def isSuppressed (filePath : String) (lineNumber : Option Nat)
    (matchedText : Option String) (al : Allowlist) : Bool :=
  al.files.contains filePath
  || al.paths.any (fun e =>
      List.isPrefixOf e.data filePath.data || (pyMatch e filePath).getD false)
  || (match lineNumber with
      | some n => al.lines.contains (filePath ++ ":" ++ toString n)
      | none => false)
  || (match matchedText with
      | some t => al.patterns.any (fun p => (pySearch p t).getD false)
      | none => false)

/-- Modelled from the spec: stage 2 of §4.4 — prohibited-file hits over
the files that are not whole-file-allowlisted;  a malformed prohibited
pattern is skipped (§7 `PatternCompileError`, recovered locally). -/
def specProhibitedHits (pFiles pPats : List String) (al : Allowlist)
    (files : List String) : List (String × String) :=
  (files.filter (fun f => !isSuppressed f none none al)).filterMap (fun f =>
    if pFiles.contains (basename f) then some (f, "File should not be committed")
    else if pPats.any (fun p => (pyMatch p f).getD false) then
      some (f, "File matches prohibited pattern")
    else none)

/-- Modelled from the spec: the content scan of one file in stage 4 of
§4.4 — skip unreadable files and allowlisted files and lines, apply
every pattern (skipping malformed ones), and keep each extracted value
that is not text-allowlisted. -/
def specScanFile (fp : String) (rd : Except String String)
    (pats : List String) (al : Allowlist) : List Finding :=
  if isSuppressed fp none none al then []
  else
    match rd with
    | .error _ => []
    | .ok content =>
      (List.enumFrom 1 (strLines content)).flatMap (fun li =>
        if isSuppressed fp (some li.1) none al then []
        else
          pats.flatMap (fun p =>
            match pyFindall p li.2 with
            | none => []
            | some vs =>
              (vs.filter (fun v => !isSuppressed fp (some li.1) (some v) al)).map
                (fun v => (li.1, v))))

/-- Modelled from the spec: `scan` of §4.4 — disabled check, prohibited
stage (short-circuiting the run), extension filter, content scan. -/
def specScan (enabled : Bool) (pFiles pPats exts cPats : List String)
    (al : Allowlist) (files : List String)
    (reads : String → Except String String) :
    Bool × List (String × String) × List (String × List Finding) :=
  if !enabled then (true, [], [])
  else
    let hits := specProhibitedHits pFiles pPats al files
    if !hits.isEmpty then (false, hits, [])
    else
      let keep := files.filter (fun f => exts.any (fun e => strEndsWith f e))
      (false, [],
        keep.filterMap (fun f =>
          let fs := specScanFile f (reads f) cPats al
          if fs.isEmpty then none else some (f, fs)))

/-! ## Concrete scenarios used by the theorems below -/

/-- An override document consisting of one expansion key. -/
def expandDoc : Dict := [("patterns_expand", .list [.str "EXTRA"])]

/-- First call of the resolver in a process: merge `expandDoc` into the
pristine `DEFAULT_CONFIG`;  `.1` is the returned configuration, `.2` the
state of the module-level default table after the call. -/
def resolveOnce : Dict × Dict := loadConfig DEFAULT_CONFIG [.parsed expandDoc]

/-- Second call of the resolver in the same process: `load_config` again
starts from `DEFAULT_CONFIG.copy()`, but the module-level table is now
`resolveOnce.2`. -/
def resolveTwice : Dict × Dict := loadConfig resolveOnce.2 [.parsed expandDoc]

/-- The content patterns of a resolved configuration, as the scan engine
reads them. -/
def patternsOf (c : Dict) : List String :=
  jStrList ((dictGet c "patterns").getD (.list []))

end SecureGit

namespace SecureGit

/-! ## Theorems -/

/-- C2 counterexample.  A candidate config file that exists but is not
valid JSON does *not* abort the run: `load_config` warns and keeps
going, so (i) with a single unparsable candidate the run proceeds on the
defaults and exits 0, (ii) a later candidate path *is* consulted (here
it disables the hook), and (iii) the whole run then exits 0 even with a
prohibited-named file staged — contradicting "aborts before any
scanning with a non-zero exit status, and does not fall back". -/
theorem badJson_not_fatal :
    (fullRun [.badJson] [] (fun _ => .error "")).exitCode = 0
    ∧ dictGet (loadConfig DEFAULT_CONFIG
        [.badJson, .parsed [("enabled", .bool false)]]).1 "enabled"
        = some (.bool false)
    ∧ (fullRun [.badJson, .parsed [("enabled", .bool false)]] [".env"]
        (fun _ => .ok "API_KEY = \"k\"")).exitCode = 0 :=
  ⟨rfl, rfl, rfl⟩

/-- C2 (amended): if the discovered configuration file exists but is not
valid JSON, `load_config` prints a warning and continues — it falls
through to the next candidate path, uses the built-in defaults when no
candidate parses, and the run proceeds to scan with an exit status
unaffected by the parse failure. -/
theorem badJson_falls_through (defaults : Dict) (rest cands : List Candidate)
    (files : List String) (reads : String → Except String String)
    (hnp : ∀ doc, Candidate.parsed doc ∉ cands) :
    loadConfig defaults (.badJson :: rest) = loadConfig defaults rest
    ∧ loadConfig defaults cands = (defaults, defaults)
    ∧ fullRun (.badJson :: rest) files reads = fullRun rest files reads := by
  refine ⟨rfl, ?_, rfl⟩
  induction cands with
  | nil => rfl
  | cons c rest ih =>
    have hh : ∀ doc, Candidate.parsed doc ∉ rest := by
      intro doc h
      exact hnp doc (List.mem_cons_of_mem _ h)
    cases c with
    | missing => exact ih hh
    | badJson => exact ih hh
    | ioError => exact ih hh
    | parsed doc => exact absurd (List.mem_cons_self _ _) (hnp doc)

/-- Witness for `badJson_falls_through` at a concrete candidate list
with no parsable candidate: the defaults are returned unchanged. -/
theorem badJson_falls_through_witness :
    loadConfig DEFAULT_CONFIG [.badJson, .missing] = (DEFAULT_CONFIG, DEFAULT_CONFIG) :=
  (badJson_falls_through DEFAULT_CONFIG [] [.badJson, .missing] []
    (fun _ => .error "")
    (by
      intro doc h
      rcases List.mem_cons.1 h with h | h
      · exact Candidate.noConfusion h
      rcases List.mem_cons.1 h with h | h
      · exact Candidate.noConfusion h
      · exact absurd h (List.not_mem_nil _))).2.1

/-- C3: the expansion pass calls `extend` on a list that — after the
shallow `DEFAULT_CONFIG.copy()` — is still the module-level default
list, so the first resolution mutates `DEFAULT_CONFIG` (second
conjunct), and resolving the same document again yields a configuration
with the expansion applied twice (third and fourth conjuncts):  the
merge is *not* idempotent across calls. -/
theorem expand_mutates_default_table :
    dictGet resolveOnce.1 "patterns"
      = some (.list (defaultPatterns.map .str ++ [.str "EXTRA"]))
    ∧ dictGet resolveOnce.2 "patterns"
      = some (.list (defaultPatterns.map .str ++ [.str "EXTRA"]))
    ∧ dictGet resolveTwice.1 "patterns"
      = some (.list (defaultPatterns.map .str ++ [.str "EXTRA", .str "EXTRA"]))
    ∧ (patternsOf resolveTwice.1).length ≠ (patternsOf resolveOnce.1).length :=
  ⟨rfl, rfl, rfl, by decide⟩

/-- C4 counterexample.  Scanning a file whose content is the literal
line `API_KEY = "abc123"` under the default pattern set does *not* yield
exactly one Finding. -/
theorem apiKeyLine_not_one_finding :
    ¬ (scanFile "config.py" (.ok "API_KEY = \"abc123\"") defaultPatterns).1.length = 1 := by
  decide

/-- C4 (amended): the line `API_KEY = "abc123"` under the default
pattern set yields exactly two Findings at line 1 — the whole match
`API_KEY = "abc123"` of the `API_KEY` pattern, and the whole match
`KEY = "abc123"` of the `KEY` pattern (which also fires inside the
token `API_KEY`);  neither pattern has a capture group. -/
theorem apiKeyLine_two_findings :
    scanFile "config.py" (.ok "API_KEY = \"abc123\"") defaultPatterns
      = ([(1, "API_KEY = \"abc123\""), (1, "KEY = \"abc123\"")], []) := by
  rfl

/-! ### Helper lemmas about `scan_file` and the content-scan loop -/

/-- The findings accumulator of the pattern loop only ever grows: both a
normal return and the partial findings carried by an `re.error` extend
the accumulator passed in. -/
theorem scanLinePats_acc_le (line : String) (ln : Nat) :
    ∀ (pats : List String) (acc acc2 : List Finding) (q : String),
      (scanLinePats line ln pats acc = .error (acc2, q) → acc <+: acc2)
      ∧ (scanLinePats line ln pats acc = .ok acc2 → acc <+: acc2) := by
  intro pats
  induction pats with
  | nil =>
    intro acc acc2 q
    constructor
    · intro h; simp [scanLinePats] at h
    · intro h
      have h2 : acc = acc2 := by simpa [scanLinePats] using h
      exact h2 ▸ List.prefix_refl acc
  | cons p rest ih =>
    intro acc acc2 q
    constructor <;> intro h
    · cases hf : pyFindall p line with
      | none =>
        simp [scanLinePats, hf] at h
        exact h.1 ▸ List.prefix_refl acc
      | some vs =>
        simp only [scanLinePats, hf] at h
        exact List.IsPrefix.trans (List.prefix_append _ _)
          ((ih (acc ++ vs.map (fun v => (ln, v))) acc2 q).1 h)
    · cases hf : pyFindall p line with
      | none => simp [scanLinePats, hf] at h
      | some vs =>
        simp only [scanLinePats, hf] at h
        exact List.IsPrefix.trans (List.prefix_append _ _)
          ((ih (acc ++ vs.map (fun v => (ln, v))) acc2 q).2 h)

/-- Same accumulator-growth property for the line loop. -/
theorem scanLines_acc_le :
    ∀ (lines : List String) (ln : Nat) (pats : List String)
      (acc acc2 : List Finding) (q : String),
      (scanLines lines ln pats acc = .error (acc2, q) → acc <+: acc2)
      ∧ (scanLines lines ln pats acc = .ok acc2 → acc <+: acc2) := by
  intro lines
  induction lines with
  | nil =>
    intro ln pats acc acc2 q
    constructor
    · intro h; simp [scanLines] at h
    · intro h
      have h2 : acc = acc2 := by simpa [scanLines] using h
      exact h2 ▸ List.prefix_refl acc
  | cons line more ih =>
    intro ln pats acc acc2 q
    constructor <;> intro h
    · cases hl : scanLinePats line ln pats acc with
      | error ep =>
        rcases ep with ⟨accE, pE⟩
        simp only [scanLines, hl, Except.error.injEq, Prod.mk.injEq] at h
        exact h.1 ▸ (scanLinePats_acc_le line ln pats acc accE pE).1 hl
      | ok accM =>
        simp only [scanLines, hl] at h
        exact List.IsPrefix.trans ((scanLinePats_acc_le line ln pats acc accM q).2 hl)
          ((ih (ln + 1) pats accM acc2 q).1 h)
    · cases hl : scanLinePats line ln pats acc with
      | error ep =>
        simp [scanLines, hl] at h
      | ok accM =>
        simp only [scanLines, hl] at h
        exact List.IsPrefix.trans ((scanLinePats_acc_le line ln pats acc accM q).2 hl)
          ((ih (ln + 1) pats accM acc2 q).2 h)

/-- A pattern that fails to compile makes `re.findall` raise. -/
theorem pyFindall_none (p : String) (hb : parseRe p = none) (line : String) :
    pyFindall p line = none := by
  unfold pyFindall
  rw [hb]

/-- A pattern that compiles makes `re.findall` return a value list. -/
theorem pyFindall_some (p : String) (hp : (parseRe p).isSome) (line : String) :
    ∃ vs, pyFindall p line = some vs := by
  obtain ⟨t, ht⟩ := Option.isSome_iff_exists.1 hp
  rcases t with ⟨r, ci, ng⟩
  exact ⟨_, by unfold pyFindall; rw [ht]⟩

/-- With well-formed patterns before a malformed one, the pattern loop
on any line raises at the malformed pattern, carrying the findings
accumulated so far. -/
theorem scanLinePats_err_at (bad : String) (hb : parseRe bad = none) :
    ∀ (good : List String), (∀ p ∈ good, (parseRe p).isSome) →
    ∀ (more : List String) (line : String) (ln : Nat) (acc : List Finding),
      ∃ acc2, scanLinePats line ln (good ++ bad :: more) acc = .error (acc2, bad) := by
  intro good
  induction good with
  | nil =>
    intro _ more line ln acc
    exact ⟨acc, by simp [scanLinePats, pyFindall_none bad hb]⟩
  | cons p rest ih =>
    intro hg more line ln acc
    obtain ⟨vs, hv⟩ := pyFindall_some p (hg p (List.mem_cons_self _ _)) line
    obtain ⟨acc2, h2⟩ :=
      ih (fun q hq => hg q (List.mem_cons_of_mem _ hq)) more line ln
        (acc ++ vs.map (fun v => (ln, v)))
    exact ⟨acc2, by simp [scanLinePats, hv, h2]⟩

/-- `content.split("\n")` never yields an empty line list. -/
theorem splitNl_ne_nil : ∀ cs : List Char, splitNl cs ≠ []
  | [] => by simp [splitNl]
  | c :: rest => by
    simp only [splitNl]
    cases h : splitNl rest with
    | nil => simp
    | cons l ls => by_cases hc : c = '\n' <;> simp [hc]

/-- Every string has at least one line. -/
theorem strLines_cons (s : String) : ∃ l ls, strLines s = l :: ls := by
  cases h : splitNl s.data with
  | nil => exact absurd h (splitNl_ne_nil _)
  | cons l ls => exact ⟨strOf l, ls.map strOf, by simp [strLines, h]⟩

/-- `scan_file` on a readable file whose pattern list contains a
malformed pattern (preceded by well-formed ones) returns with exactly
the `re.error` warning for that pattern. -/
theorem scanFile_bad_warns (f c : String) (good : List String) (bad : String)
    (more : List String) (hg : ∀ p ∈ good, (parseRe p).isSome)
    (hb : parseRe bad = none) :
    ∃ fs, scanFile f (.ok c) (good ++ bad :: more)
      = (fs, [readWarn f ("re.error in pattern " ++ bad)]) := by
  obtain ⟨l, ls, hl⟩ := strLines_cons c
  obtain ⟨acc2, h2⟩ := scanLinePats_err_at bad hb good hg more l 1 []
  refine ⟨acc2, ?_⟩
  simp [scanFile, hl, scanLines, h2]

/-- Unfolding lemma: findings component of the per-file loop. -/
theorem contentScanAll_fst_cons (f : String) (rest : List String)
    (pats : List String) (reads : String → Except String String) :
    (contentScanAll (f :: rest) pats reads).1
      = if (scanFile f (reads f) pats).1.isEmpty
        then (contentScanAll rest pats reads).1
        else (f, (scanFile f (reads f) pats).1) :: (contentScanAll rest pats reads).1 := rfl

/-- Unfolding lemma: warnings component of the per-file loop. -/
theorem contentScanAll_snd_cons (f : String) (rest : List String)
    (pats : List String) (reads : String → Except String String) :
    (contentScanAll (f :: rest) pats reads).2
      = (scanFile f (reads f) pats).2 ++ (contentScanAll rest pats reads).2 := rfl

/-- `scan_file` on an unreadable file. -/
theorem scanFile_err (fp e : String) (pats : List String) :
    scanFile fp (.error e) pats = ([], [readWarn fp e]) := rfl

/-- Warnings of each scanned file surface in the loop's warnings. -/
theorem contentScanAll_warn_mem (pats : List String)
    (reads : String → Except String String) (w : String) :
    ∀ (files : List String) (f : String), f ∈ files →
      w ∈ (scanFile f (reads f) pats).2 →
      w ∈ (contentScanAll files pats reads).2 := by
  intro files
  induction files with
  | nil => intro f hf _; exact absurd hf (List.not_mem_nil f)
  | cons f0 rest ih =>
    intro f hf hw
    rw [contentScanAll_snd_cons]
    rcases List.mem_cons.1 hf with h | h
    · exact List.mem_append_left _ (h ▸ hw)
    · exact List.mem_append_right _ (ih f h hw)

/-- C10: `scan_file` is total and never propagates an exception.  The
one `try` block catches a failure of the read (second conjunct) and a
failure inside the pattern loop (first conjunct: an `re.error` becomes a
warning and the findings accumulated before the failure are the
result);  whenever the loop fails, the result extends every previously
accumulated findings list (third conjunct) — so the returned value is
the partial findings list, not necessarily empty. -/
theorem scanFile_total_and_kept (fp c : String) (pats : List String)
    (sofar : List Finding) (p : String)
    (h : scanLines (strLines c) 1 pats [] = .error (sofar, p)) :
    scanFile fp (.ok c) pats = (sofar, [readWarn fp ("re.error in pattern " ++ p)])
    ∧ (∀ e, scanFile fp (.error e) pats = ([], [readWarn fp e]))
    ∧ (∀ (lines : List String) (ln : Nat) (acc acc2 : List Finding) (q : String),
        scanLines lines ln pats acc = .error (acc2, q) → acc <+: acc2) := by
  refine ⟨?_, fun e => rfl,
    fun lines ln acc acc2 q hh => (scanLines_acc_le lines ln pats acc acc2 q).1 hh⟩
  simp [scanFile, h]

/-- Witness for `scanFile_total_and_kept`: a malformed pattern in the
list is caught inside `scan_file` and reported as a warning. -/
theorem scanFile_total_and_kept_witness :
    scanFile "w.py" (.ok "TOKEN = \"y\"") ["[", "TOKEN"]
      = ([], [readWarn "w.py" "re.error in pattern ["]) :=
  (scanFile_total_and_kept "w.py" "TOKEN = \"y\"" ["[", "TOKEN"] [] "[" rfl).1

/-- C5 (amended): a malformed regular expression never aborts the run —
every readable file in the list is still visited and each one's scan
runs up to the malformed pattern, emitting the per-file warning (but the
remainder of that file's scan is skipped, rather than only the one
pattern, see `malformed_halts_remaining_patterns`). -/
theorem malformed_never_aborts_run (files good : List String) (bad : String)
    (more : List String) (reads : String → Except String String)
    (hg : ∀ p ∈ good, (parseRe p).isSome) (hb : parseRe bad = none) :
    ∀ f ∈ files, ∀ c, reads f = .ok c →
      readWarn f ("re.error in pattern " ++ bad)
        ∈ (contentScanAll files (good ++ bad :: more) reads).2 := by
  intro f hf c hc
  obtain ⟨fs, hsf⟩ := scanFile_bad_warns f c good bad more hg hb
  apply contentScanAll_warn_mem _ reads _ files f hf
  rw [hc, hsf]
  exact List.mem_singleton.2 rfl

/-- Witness for `malformed_never_aborts_run`: with the malformed `(` in
the pattern list, the second file of the list is still scanned and
warned about. -/
theorem malformed_never_aborts_run_witness :
    readWarn "b.py" "re.error in pattern ("
      ∈ (contentScanAll ["a.py", "b.py"] ["("] (fun _ => .ok "x")).2 :=
  malformed_never_aborts_run ["a.py", "b.py"] [] "(" [] (fun _ => .ok "x")
    (fun p hp => absurd hp (List.not_mem_nil p)) rfl "b.py"
    (List.mem_cons_of_mem _ (List.mem_cons_self _ _)) "x" rfl

/-- C7: a single unreadable file does not change the findings collected
from the other files (first conjunct) and is reported by a warning
naming it (second conjunct);  the loop is total, so a read failure is
never fatal to the run. -/
theorem unreadable_file_not_fatal (pre post : List String) (bad : String)
    (pats : List String) (reads : String → Except String String) (e : String)
    (h : reads bad = .error e) :
    (contentScanAll (pre ++ bad :: post) pats reads).1
      = (contentScanAll (pre ++ post) pats reads).1
    ∧ readWarn bad e ∈ (contentScanAll (pre ++ bad :: post) pats reads).2 := by
  induction pre with
  | nil =>
    rw [List.nil_append, List.nil_append]
    constructor
    · rw [contentScanAll_fst_cons, h, scanFile_err]
      rfl
    · rw [contentScanAll_snd_cons, h, scanFile_err]
      exact List.mem_append_left _ (List.mem_singleton.2 rfl)
  | cons f rest ih =>
    rw [List.cons_append, List.cons_append]
    constructor
    · rw [contentScanAll_fst_cons, contentScanAll_fst_cons, ih.1]
    · rw [contentScanAll_snd_cons]
      exact List.mem_append_right _ ih.2

/-- Witness for `unreadable_file_not_fatal`: with `b.py` unreadable in
the middle of the list, the findings equal those of the two-file list
without it, and the warning names `b.py`. -/
theorem unreadable_file_not_fatal_witness :
    (contentScanAll ["a.py", "b.py", "c.py"]
        ["API_KEY\\s*=\\s*[\"\x27].*[\"\x27]"]
        (fun f => if f = "b.py" then .error "Permission denied"
          else .ok "API_KEY = \"k\"")).1
      = (contentScanAll ["a.py", "c.py"]
        ["API_KEY\\s*=\\s*[\"\x27].*[\"\x27]"]
        (fun f => if f = "b.py" then .error "Permission denied"
          else .ok "API_KEY = \"k\"")).1
    ∧ readWarn "b.py" "Permission denied"
      ∈ (contentScanAll ["a.py", "b.py", "c.py"]
        ["API_KEY\\s*=\\s*[\"\x27].*[\"\x27]"]
        (fun f => if f = "b.py" then .error "Permission denied"
          else .ok "API_KEY = \"k\"")).2 :=
  unreadable_file_not_fatal ["a.py"] ["c.py"] "b.py"
    ["API_KEY\\s*=\\s*[\"\x27].*[\"\x27]"]
    (fun f => if f = "b.py" then .error "Permission denied"
      else .ok "API_KEY = \"k\"") "Permission denied" rfl

/-! ### Helper lemmas about strings and the merge dictionaries -/

/-- Two strings with the same character list are equal. -/
theorem strEq_of_data (a b : String) (h : a.data = b.data) : a = b := by
  cases a
  cases b
  cases h
  rfl

/-- Appending strings appends their character lists. -/
theorem strData_append (a b : String) : (a ++ b).data = a.data ++ b.data := by
  cases a
  cases b
  rfl

/-- A concatenation ends with its second part. -/
theorem strEndsWith_append (a b : String) : strEndsWith (a ++ b) b = true := by
  unfold strEndsWith listIsSuffix
  rw [strData_append, List.reverse_append, List.isPrefixOf_iff_prefix]
  exact List.prefix_append _ _

/-- Dropping the second part of a concatenation from the right yields
the first part. -/
theorem strDropRight_append (a b : String) : strDropRight (a ++ b) b.data.length = a := by
  apply strEq_of_data
  show ((a ++ b).data.take ((a ++ b).data.length - b.data.length)) = a.data
  rw [strData_append, List.length_append, Nat.add_sub_cancel]
  exact List.take_left a.data b.data

/-- A string that ends with `suf` is `strDropRight` of itself plus
`suf`. -/
theorem strEndsWith_decomp (k suf : String) (h : strEndsWith k suf = true) :
    strDropRight k suf.data.length ++ suf = k := by
  have hp : suf.data.reverse <+: k.data.reverse := by
    rw [← List.isPrefixOf_iff_prefix]
    exact h
  obtain ⟨t, ht⟩ := hp
  have hk : k.data = t.reverse ++ suf.data := by
    have h2 := congrArg List.reverse ht
    simpa using h2.symm
  apply strEq_of_data
  rw [strData_append]
  show (k.data.take (k.data.length - suf.data.length)) ++ suf.data = k.data
  rw [hk]
  have hlen : (t.reverse ++ suf.data).length - suf.data.length = t.reverse.length := by
    simp [List.length_append]
  rw [hlen, List.take_left]

/-- A key other than `X ++ "_exclude"` that ends in `"_exclude"` strips
to a base other than `X` (and analogously for any suffix). -/
theorem strip_ne (k X suf : String) (hk : k ≠ X ++ suf)
    (hend : strEndsWith k suf = true) : strDropRight k suf.data.length ≠ X := by
  intro hx
  exact hk (by rw [← strEndsWith_decomp k suf hend, hx])

/-- Looking up a key just inserted at the head. -/
theorem dictGet_cons_self (k : String) (w : JVal) (rest : Dict) :
    dictGet ((k, w) :: rest) k = some w := by
  simp [dictGet]

/-- Head entries with other keys do not affect a lookup. -/
theorem dictGet_cons_ne (k X : String) (w : JVal) (rest : Dict) (hk : k ≠ X) :
    dictGet ((k, w) :: rest) X = dictGet rest X := by
  simp [dictGet, hk]

/-- `dictGet` is `none` exactly when no entry has the key. -/
theorem dictGet_none_iff (d : Dict) (k : String) :
    dictGet d k = none ↔ ∀ kv ∈ d, kv.1 ≠ k := by
  unfold dictGet
  rw [Option.map_eq_none', List.find?_eq_none]
  constructor
  · intro h kv hkv
    simpa using h kv hkv
  · intro h kv hkv
    simpa using h kv hkv

/-- `mSet` on an existing key stores the new value and flag. -/
theorem mGet_mSet_self (m : MDict) (k : String) (v : JVal) (al : Bool)
    (h : (mGet m k).isSome) : mGet (mSet m k v al) k = some (v, al) := by
  induction m with
  | nil => simp [mGet] at h
  | cons e rest ih =>
    by_cases he : e.1 = k
    · simp [mSet, mGet, he]
    · have h2 : (mGet rest k).isSome := by
        simpa [mGet, List.find?, he] using h
      simp [mSet, mGet, he, List.find?]
      simpa [mGet] using ih h2

/-- `mSet` at another key leaves a lookup unchanged. -/
theorem mGet_mSet_ne (m : MDict) (k2 k : String) (v : JVal) (al : Bool)
    (h : k2 ≠ k) : mGet (mSet m k2 v al) k = mGet m k := by
  induction m with
  | nil => simp [mSet]
  | cons e rest ih =>
    by_cases he : e.1 = k2
    · simp [mSet, mGet, he, List.find?, h, he ▸ h]
    · simp only [mSet, he, if_neg]
      simp only [mGet, List.find?] at ih ⊢
      by_cases hek : e.1 = k
      · simp [hek]
      · simpa [hek] using ih

/-- `mSet` does not change the key sequence. -/
theorem mSet_keys (m : MDict) (k : String) (v : JVal) (al : Bool) :
    (mSet m k v al).map (fun q => q.1) = m.map (fun q => q.1) := by
  induction m with
  | nil => rfl
  | cons e rest ih =>
    by_cases he : e.1 = k
    · simp [mSet, he]
    · simp [mSet, he, ih]

/-- A lookup succeeds exactly when the key occurs in the key sequence. -/
theorem mGet_isSome_iff_mem (m : MDict) (k : String) :
    (mGet m k).isSome ↔ k ∈ m.map (fun q => q.1) := by
  unfold mGet
  rw [Option.isSome_map']
  rw [List.find?_isSome]
  constructor
  · rintro ⟨q, hq, hk⟩
    exact List.mem_map.2 ⟨q, hq, by simpa using hk⟩
  · rintro h
    obtain ⟨q, hq, hk⟩ := List.mem_map.1 h
    exact ⟨q, hq, by simpa using hk⟩

/-- Lookup in the aliased copy of the defaults. -/
theorem toAliased_lookup (d : Dict) (k : String) :
    mGet (toAliased d) k = (dictGet d k).map (fun w => (w, true)) := by
  induction d with
  | nil => rfl
  | cons e rest ih =>
    by_cases he : e.1 = k
    · simp [toAliased, mGet, dictGet, List.find?, he]
    · simp only [toAliased, mGet, dictGet, List.find?] at ih ⊢
      simpa [he] using ih

/-- Lookup in the value projection of a merge dict. -/
theorem dictGet_mapVal (m : MDict) (k : String) :
    dictGet (m.map (fun q => (q.1, q.2.1))) k = (mGet m k).map Prod.fst := by
  induction m with
  | nil => rfl
  | cons e rest ih =>
    by_cases he : e.1 = k
    · simp [dictGet, mGet, List.find?, he]
    · simp only [dictGet, mGet, List.find?, List.map] at ih ⊢
      simpa [he] using ih

/-! ### Helper lemmas about the three merge passes -/

/-- A direct-replacement step at another key leaves a lookup unchanged. -/
theorem dStep_preserve (m : MDict) (kv : String × JVal) (X : String)
    (hk : kv.1 ≠ X) : mGet (dStep m kv) X = mGet m X := by
  unfold dStep
  by_cases hc : (!strEndsWith kv.1 "_exclude" && !strEndsWith kv.1 "_expand"
      && (mGet m kv.1).isSome) = true
  · rw [if_pos hc]
    exact mGet_mSet_ne m kv.1 X kv.2 false hk
  · rw [if_neg hc]

/-- An exclusion step for a key other than `X ++ "_exclude"` leaves the
lookup of `X` unchanged. -/
theorem eStep_preserve (m : MDict) (k : String) (w : JVal) (X : String)
    (hk : k ≠ X ++ "_exclude") : mGet (eStep m (k, w)) X = mGet m X := by
  cases w with
  | list excl =>
    simp only [eStep]
    by_cases hend : strEndsWith k "_exclude" = true
    · rw [if_pos hend]
      have hb : strDropRight k 8 ≠ X := strip_ne k X "_exclude" hk hend
      cases hm : mGet m (strDropRight k 8) with
      | none => rfl
      | some p =>
        obtain ⟨pv, pal⟩ := p
        cases pv with
        | list bl => exact mGet_mSet_ne m _ X _ false hb
        | bool b => rfl
        | num n => rfl
        | str s => rfl
        | obj o => rfl
    · rw [if_neg hend]
  | bool b => rfl
  | num n => rfl
  | str s => rfl
  | obj o => rfl

/-- An expansion step for a key other than `X ++ "_expand"` leaves the
lookup of `X` unchanged. -/
theorem xStep_preserve (m : MDict) (k : String) (w : JVal) (X : String)
    (hk : k ≠ X ++ "_expand") : mGet (xStep m (k, w)) X = mGet m X := by
  cases w with
  | list ext =>
    simp only [xStep]
    by_cases hend : strEndsWith k "_expand" = true
    · rw [if_pos hend]
      have hb : strDropRight k 7 ≠ X := strip_ne k X "_expand" hk hend
      cases hm : mGet m (strDropRight k 7) with
      | none => rfl
      | some p =>
        obtain ⟨pv, pal⟩ := p
        cases pv with
        | list bl => exact mGet_mSet_ne m _ X _ pal hb
        | bool b => rfl
        | num n => rfl
        | str s => rfl
        | obj o => rfl
    · rw [if_neg hend]
  | bool b => rfl
  | num n => rfl
  | str s => rfl
  | obj o => rfl

/-- A document with no entry for `X` leaves pass 1's lookup of `X`
unchanged. -/
theorem passDirect_skip (X : String) :
    ∀ (doc : Dict) (m : MDict), (∀ kv ∈ doc, kv.1 ≠ X) →
      mGet (passDirect m doc) X = mGet m X := by
  intro doc
  induction doc with
  | nil => intro m _; rfl
  | cons kv rest ih =>
    intro m h
    show mGet (passDirect (dStep m kv) rest) X = mGet m X
    rw [ih (dStep m kv) (fun q hq => h q (List.mem_cons_of_mem _ hq))]
    exact dStep_preserve m kv X (h kv (List.mem_cons_self _ _))

/-- A document with no entry for `X ++ "_exclude"` leaves pass 2's
lookup of `X` unchanged. -/
theorem passExclude_skip (X : String) :
    ∀ (doc : Dict) (m : MDict), (∀ kv ∈ doc, kv.1 ≠ X ++ "_exclude") →
      mGet (passExclude m doc) X = mGet m X := by
  intro doc
  induction doc with
  | nil => intro m _; rfl
  | cons kv rest ih =>
    intro m h
    show mGet (passExclude (eStep m kv) rest) X = mGet m X
    rw [ih (eStep m kv) (fun q hq => h q (List.mem_cons_of_mem _ hq))]
    exact eStep_preserve m kv.1 kv.2 X (h kv (List.mem_cons_self _ _))

/-- A document with no entry for `X ++ "_expand"` leaves pass 3's
lookup of `X` unchanged. -/
theorem passExpand_skip (X : String) :
    ∀ (doc : Dict) (m : MDict), (∀ kv ∈ doc, kv.1 ≠ X ++ "_expand") →
      mGet (passExpand m doc) X = mGet m X := by
  intro doc
  induction doc with
  | nil => intro m _; rfl
  | cons kv rest ih =>
    intro m h
    show mGet (passExpand (xStep m kv) rest) X = mGet m X
    rw [ih (xStep m kv) (fun q hq => h q (List.mem_cons_of_mem _ hq))]
    exact xStep_preserve m kv.1 kv.2 X (h kv (List.mem_cons_self _ _))

/-- Pass 1 on a document whose key `X` (reserved-suffix free) maps to
`w`, over a base that has the key: the base entry is replaced by `w`
with the alias to the default table severed. -/
theorem passDirect_hit (X : String) (w : JVal)
    (hX1 : strEndsWith X "_exclude" = false)
    (hX2 : strEndsWith X "_expand" = false) :
    ∀ (doc : Dict) (m : MDict), (doc.map Prod.fst).Nodup →
      dictGet doc X = some w → (mGet m X).isSome →
      mGet (passDirect m doc) X = some (w, false) := by
  intro doc
  induction doc with
  | nil =>
    intro m _ hdg _
    simp [dictGet] at hdg
  | cons kv rest ih =>
    intro m hnd hdg hs
    obtain ⟨k, w0⟩ := kv
    have hnd' : k ∉ rest.map Prod.fst ∧ (rest.map Prod.fst).Nodup := by
      rw [← List.nodup_cons]
      simpa using hnd
    by_cases hk : k = X
    · subst hk
      rw [dictGet_cons_self] at hdg
      injection hdg with hw
      subst hw
      show mGet (passDirect (dStep m (k, w0)) rest) k = some (w0, false)
      have hrest : ∀ q ∈ rest, q.1 ≠ k := by
        intro q hq hqx
        exact hnd'.1 (List.mem_map.2 ⟨q, hq, hqx⟩)
      rw [passDirect_skip k rest (dStep m (k, w0)) hrest]
      unfold dStep
      rw [if_pos (by simp [hX1, hX2, hs])]
      exact mGet_mSet_self m k w0 false hs
    · rw [dictGet_cons_ne k X w0 rest hk] at hdg
      show mGet (passDirect (dStep m (k, w0)) rest) X = some (w, false)
      exact ih (dStep m (k, w0)) hnd'.2 hdg
        (by rw [dStep_preserve m (k, w0) X hk]; exact hs)

/-- Pass 2 on a document whose key `X ++ "_exclude"` maps to the list
`excl`, over a base whose entry for `X` holds a list: the entry becomes
the filtered list with the alias severed. -/
theorem passExclude_hit (X : String) (excl : List JVal) :
    ∀ (doc : Dict) (m : MDict) (bl : List JVal) (al : Bool),
      (doc.map Prod.fst).Nodup →
      dictGet doc (X ++ "_exclude") = some (.list excl) →
      mGet m X = some (.list bl, al) →
      mGet (passExclude m doc) X
        = some (.list (bl.filter (fun item => !excl.any (JVal.beq item))), false) := by
  intro doc
  induction doc with
  | nil =>
    intro m bl al _ hdg _
    simp [dictGet] at hdg
  | cons kv rest ih =>
    intro m bl al hnd hdg hm
    obtain ⟨k, w0⟩ := kv
    have hnd' : k ∉ rest.map Prod.fst ∧ (rest.map Prod.fst).Nodup := by
      rw [← List.nodup_cons]
      simpa using hnd
    by_cases hk : k = X ++ "_exclude"
    · subst hk
      rw [dictGet_cons_self] at hdg
      injection hdg with hw
      subst hw
      show mGet (passExclude (eStep m (X ++ "_exclude", .list excl)) rest) X = _
      have hrest : ∀ q ∈ rest, q.1 ≠ X ++ "_exclude" := by
        intro q hq hqx
        exact hnd'.1 (List.mem_map.2 ⟨q, hq, hqx⟩)
      rw [passExclude_skip X rest _ hrest]
      have hbase : strDropRight (X ++ "_exclude") 8 = X := strDropRight_append X "_exclude"
      simp only [eStep, strEndsWith_append, if_true, hbase, hm]
      exact mGet_mSet_self m X _ false (by rw [hm]; rfl)
    · rw [dictGet_cons_ne k _ w0 rest hk] at hdg
      show mGet (passExclude (eStep m (k, w0)) rest) X = _
      exact ih (eStep m (k, w0)) bl al hnd'.2 hdg
        (by rw [eStep_preserve m k w0 X hk]; exact hm)

/-- Pass 3 on a document whose key `X ++ "_expand"` maps to the list
`ext`, over a base whose entry for `X` holds a list: the entry becomes
the extended list — and keeps its alias flag, this being an in-place
`extend`. -/
theorem passExpand_hit (X : String) (ext : List JVal) :
    ∀ (doc : Dict) (m : MDict) (bl : List JVal) (al : Bool),
      (doc.map Prod.fst).Nodup →
      dictGet doc (X ++ "_expand") = some (.list ext) →
      mGet m X = some (.list bl, al) →
      mGet (passExpand m doc) X = some (.list (bl ++ ext), al) := by
  intro doc
  induction doc with
  | nil =>
    intro m bl al _ hdg _
    simp [dictGet] at hdg
  | cons kv rest ih =>
    intro m bl al hnd hdg hm
    obtain ⟨k, w0⟩ := kv
    have hnd' : k ∉ rest.map Prod.fst ∧ (rest.map Prod.fst).Nodup := by
      rw [← List.nodup_cons]
      simpa using hnd
    by_cases hk : k = X ++ "_expand"
    · subst hk
      rw [dictGet_cons_self] at hdg
      injection hdg with hw
      subst hw
      show mGet (passExpand (xStep m (X ++ "_expand", .list ext)) rest) X = _
      have hrest : ∀ q ∈ rest, q.1 ≠ X ++ "_expand" := by
        intro q hq hqx
        exact hnd'.1 (List.mem_map.2 ⟨q, hq, hqx⟩)
      rw [passExpand_skip X rest _ hrest]
      have hbase : strDropRight (X ++ "_expand") 7 = X := strDropRight_append X "_expand"
      simp only [xStep, strEndsWith_append, if_true, hbase, hm]
      exact mGet_mSet_self m X _ al (by rw [hm]; rfl)
    · rw [dictGet_cons_ne k _ w0 rest hk] at hdg
      show mGet (passExpand (xStep m (k, w0)) rest) X = _
      exact ih (xStep m (k, w0)) bl al hnd'.2 hdg
        (by rw [xStep_preserve m k w0 X hk]; exact hm)

/-- A direct-replacement step does not change the key sequence. -/
theorem dStep_keys (m : MDict) (kv : String × JVal) :
    (dStep m kv).map (fun q => q.1) = m.map (fun q => q.1) := by
  unfold dStep
  by_cases hc : (!strEndsWith kv.1 "_exclude" && !strEndsWith kv.1 "_expand"
      && (mGet m kv.1).isSome) = true
  · rw [if_pos hc]
    exact mSet_keys m kv.1 kv.2 false
  · rw [if_neg hc]

/-- An exclusion step does not change the key sequence. -/
theorem eStep_keys (m : MDict) (kv : String × JVal) :
    (eStep m kv).map (fun q => q.1) = m.map (fun q => q.1) := by
  obtain ⟨k, w⟩ := kv
  cases w with
  | list excl =>
    simp only [eStep]
    by_cases hend : strEndsWith k "_exclude" = true
    · rw [if_pos hend]
      cases hm : mGet m (strDropRight k 8) with
      | none => rfl
      | some p =>
        obtain ⟨pv, pal⟩ := p
        cases pv with
        | list bl => exact mSet_keys m _ _ _
        | bool b => rfl
        | num n => rfl
        | str s => rfl
        | obj o => rfl
    · rw [if_neg hend]
  | bool b => rfl
  | num n => rfl
  | str s => rfl
  | obj o => rfl

/-- An expansion step does not change the key sequence. -/
theorem xStep_keys (m : MDict) (kv : String × JVal) :
    (xStep m kv).map (fun q => q.1) = m.map (fun q => q.1) := by
  obtain ⟨k, w⟩ := kv
  cases w with
  | list ext =>
    simp only [xStep]
    by_cases hend : strEndsWith k "_expand" = true
    · rw [if_pos hend]
      cases hm : mGet m (strDropRight k 7) with
      | none => rfl
      | some p =>
        obtain ⟨pv, pal⟩ := p
        cases pv with
        | list bl => exact mSet_keys m _ _ _
        | bool b => rfl
        | num n => rfl
        | str s => rfl
        | obj o => rfl
    · rw [if_neg hend]
  | bool b => rfl
  | num n => rfl
  | str s => rfl
  | obj o => rfl

/-- None of the three passes changes the key sequence. -/
theorem passKeys (doc : Dict) :
    ∀ m : MDict,
      ((passDirect m doc).map (fun q => q.1) = m.map (fun q => q.1))
      ∧ ((passExclude m doc).map (fun q => q.1) = m.map (fun q => q.1))
      ∧ ((passExpand m doc).map (fun q => q.1) = m.map (fun q => q.1)) := by
  induction doc with
  | nil => intro m; exact ⟨rfl, rfl, rfl⟩
  | cons kv rest ih =>
    intro m
    refine ⟨?_, ?_, ?_⟩
    · show (passDirect (dStep m kv) rest).map _ = _
      rw [(ih (dStep m kv)).1, dStep_keys]
    · show (passExclude (eStep m kv) rest).map _ = _
      rw [(ih (eStep m kv)).2.1, eStep_keys]
    · show (passExpand (xStep m kv) rest).map _ = _
      rw [(ih (xStep m kv)).2.2, xStep_keys]

/-- The aliased copy preserves keys. -/
theorem toAliased_keys (d : Dict) :
    (toAliased d).map (fun q => q.1) = d.map Prod.fst := by
  simp [toAliased, List.map_map]

/-- `dictGet` succeeds exactly when the key occurs in the key
sequence. -/
theorem dictGet_isSome_iff_mem (d : Dict) (k : String) :
    (dictGet d k).isSome = true ↔ k ∈ d.map Prod.fst := by
  unfold dictGet
  rw [Option.isSome_map']
  rw [List.find?_isSome]
  constructor
  · rintro ⟨q, hq, hk⟩
    exact List.mem_map.2 ⟨q, hq, by simpa using hk⟩
  · rintro h
    obtain ⟨q, hq, hk⟩ := List.mem_map.1 h
    exact ⟨q, hq, by simpa using hk⟩

/-- Both components of `mergeDoc` keep exactly the fields of the
base table, in order. -/
theorem mergeDoc_keys (defaults doc : Dict) :
    (mergeDoc defaults doc).1.map Prod.fst = defaults.map Prod.fst
    ∧ (mergeDoc defaults doc).2.map Prod.fst = defaults.map Prod.fst := by
  constructor
  · show ((passExpand (passExclude (passDirect (toAliased defaults) doc) doc) doc).map
      (fun q => (q.1, q.2.1))).map Prod.fst = _
    rw [List.map_map]
    have h3 := (passKeys doc (passExclude (passDirect (toAliased defaults) doc) doc)).2.2
    have h2 := (passKeys doc (passDirect (toAliased defaults) doc)).2.1
    have h1 := (passKeys doc (toAliased defaults)).1
    have hcomp : (Prod.fst ∘ fun q : String × JVal × Bool => (q.1, q.2.1))
        = fun q : String × JVal × Bool => q.1 := rfl
    rw [hcomp, h3, h2, h1, toAliased_keys]
  · show (defaults.map _).map Prod.fst = _
    rw [List.map_map]
    apply List.map_congr_left
    intro e _
    show Prod.fst
      (match mGet (passExpand (passExclude (passDirect (toAliased defaults) doc) doc) doc) e.1 with
       | some (v, true) => (e.1, v)
       | _ => e) = e.1
    cases hm : mGet (passExpand (passExclude (passDirect (toAliased defaults) doc) doc) doc) e.1 with
    | none => rfl
    | some p =>
      obtain ⟨pv, pal⟩ := p
      cases pal with
      | true => rfl
      | false => rfl

/-- C8: within one override document the passes run direct → exclude →
expand.  For a base key `X` (no reserved suffix) that the document
directly replaces with the list `v`, together with list-valued
`X_exclude = e` and `X_expand = x`:  the resolved value of `X` is the
*replaced* list, minus the excluded items, with the expansion appended
after the exclusion — `(filter of v) ++ x`, never the pre-exclusion
`v ++ x` and never a layering over the original default. -/
theorem merge_direct_exclude_expand_order
    (defaults doc : Dict) (X : String) (v e x : List JVal)
    (hX1 : strEndsWith X "_exclude" = false)
    (hX2 : strEndsWith X "_expand" = false)
    (hnd : (doc.map Prod.fst).Nodup)
    (hdX : dictGet doc X = some (.list v))
    (hde : dictGet doc (X ++ "_exclude") = some (.list e))
    (hdx : dictGet doc (X ++ "_expand") = some (.list x))
    (hD : (dictGet defaults X).isSome = true) :
    dictGet (mergeDoc defaults doc).1 X
      = some (.list ((v.filter (fun item => !e.any (JVal.beq item))) ++ x)) := by
  have h0s : (mGet (toAliased defaults) X).isSome := by
    rw [toAliased_lookup, Option.isSome_map']
    exact hD
  have h1 : mGet (passDirect (toAliased defaults) doc) X = some (.list v, false) :=
    passDirect_hit X (.list v) hX1 hX2 doc (toAliased defaults) hnd hdX h0s
  have h2 := passExclude_hit X e doc (passDirect (toAliased defaults) doc) v false hnd hde h1
  have h3 := passExpand_hit X x doc
    (passExclude (passDirect (toAliased defaults) doc) doc)
    (v.filter (fun item => !e.any (JVal.beq item))) false hnd hdx h2
  show dictGet ((passExpand (passExclude (passDirect (toAliased defaults) doc) doc) doc).map
    (fun q => (q.1, q.2.1))) X = _
  rw [dictGet_mapVal, h3]
  rfl

/-- Witness for `merge_direct_exclude_expand_order`: base `p` is first
replaced by `[c, d]`, then `c` is excluded, then `e` is appended onto
the post-exclusion list, giving `[d, e]`. -/
theorem merge_direct_exclude_expand_order_witness :
    dictGet (mergeDoc [("p", .list [.str "a", .str "b"])]
      [("p", .list [.str "c", .str "d"]),
       ("p_exclude", .list [.str "c"]),
       ("p_expand", .list [.str "e"])]).1 "p"
      = some (.list [.str "d", .str "e"]) :=
  merge_direct_exclude_expand_order
    [("p", .list [.str "a", .str "b"])]
    [("p", .list [.str "c", .str "d"]),
     ("p_exclude", .list [.str "c"]),
     ("p_expand", .list [.str "e"])]
    "p" [.str "c", .str "d"] [.str "c"] [.str "e"]
    rfl rfl (by simp) rfl rfl rfl rfl

/-- C9: merging any override document into `DEFAULT_CONFIG` preserves
the field list exactly — both the returned configuration and the
post-call default table have precisely the default keys, in order
(nothing added for unknown keys, nothing removed), the same holds
through `load_config` for any candidate list, and in particular every
field the scan engine reads is present after any merge. -/
theorem merge_preserves_fields (doc : Dict) (cands : List Candidate) :
    (mergeDoc DEFAULT_CONFIG doc).1.map Prod.fst = DEFAULT_CONFIG.map Prod.fst
    ∧ (mergeDoc DEFAULT_CONFIG doc).2.map Prod.fst = DEFAULT_CONFIG.map Prod.fst
    ∧ (loadConfig DEFAULT_CONFIG cands).1.map Prod.fst = DEFAULT_CONFIG.map Prod.fst
    ∧ dictHas (mergeDoc DEFAULT_CONFIG doc).1 "enabled" = true
    ∧ dictHas (mergeDoc DEFAULT_CONFIG doc).1 "valid_extensions" = true
    ∧ dictHas (mergeDoc DEFAULT_CONFIG doc).1 "prohibited_files" = true
    ∧ dictHas (mergeDoc DEFAULT_CONFIG doc).1 "prohibited_patterns" = true
    ∧ dictHas (mergeDoc DEFAULT_CONFIG doc).1 "patterns" = true := by
  have hk := mergeDoc_keys DEFAULT_CONFIG doc
  have hload : ∀ cs : List Candidate,
      (loadConfig DEFAULT_CONFIG cs).1.map Prod.fst = DEFAULT_CONFIG.map Prod.fst := by
    intro cs
    induction cs with
    | nil => rfl
    | cons c rest ih =>
      cases c with
      | missing => exact ih
      | badJson => exact ih
      | ioError => exact ih
      | parsed d => exact (mergeDoc_keys DEFAULT_CONFIG d).1
  have hhas : ∀ key : String,
      dictHas (mergeDoc DEFAULT_CONFIG doc).1 key = dictHas DEFAULT_CONFIG key := by
    intro key
    unfold dictHas
    rw [Bool.eq_iff_iff, dictGet_isSome_iff_mem, dictGet_isSome_iff_mem, hk.1]
  exact ⟨hk.1, hk.2, hload cands,
    by rw [hhas]; rfl, by rw [hhas]; rfl, by rw [hhas]; rfl,
    by rw [hhas]; rfl, by rw [hhas]; rfl⟩

/-! ### Helper lemmas about the spec-modelled allowlist scan -/

/-- The prohibited-hit component of the spec-modelled scan is either
empty or exactly the stage-2 hit list. -/
theorem specScan_hits_cases (en : Bool) (pF pP exts cP : List String)
    (al : Allowlist) (files : List String)
    (reads : String → Except String String) :
    (specScan en pF pP exts cP al files reads).2.1 = []
    ∨ (specScan en pF pP exts cP al files reads).2.1
        = specProhibitedHits pF pP al files := by
  simp only [specScan]
  split
  · exact Or.inl rfl
  · split
    · exact Or.inr rfl
    · exact Or.inl rfl

/-- The findings component of the spec-modelled scan is either empty or
exactly the stage-4 per-file collection. -/
theorem specScan_findings_cases (en : Bool) (pF pP exts cP : List String)
    (al : Allowlist) (files : List String)
    (reads : String → Except String String) :
    (specScan en pF pP exts cP al files reads).2.2 = []
    ∨ (specScan en pF pP exts cP al files reads).2.2
        = (files.filter (fun f => exts.any (fun e => strEndsWith f e))).filterMap
            (fun f =>
              let fs := specScanFile f (reads f) cP al
              if fs.isEmpty then none else some (f, fs)) := by
  simp only [specScan]
  split
  · exact Or.inl rfl
  · split
    · exact Or.inl rfl
    · exact Or.inr rfl

/-- C1 (spec-modelled; the Allowlist Resolver is absent from `src/`):
a file path in `allowlist.files` is suppressed everywhere — the
spec-modelled scan yields no ProhibitedHit for it (first conjunct) and
no Finding for it (second conjunct), whatever the configuration, the
file list and the file contents;  it is suppressed at every granularity
(third conjunct);  and suppression is the OR of the four independent
list checks, so any one of them alone suffices (fourth conjunct). -/
theorem allowlist_files_suppress (al : Allowlist) (fp : String)
    (hf : fp ∈ al.files) :
    (∀ (en : Bool) (pF pP exts cP files : List String)
        (reads : String → Except String String) (r : String),
        (fp, r) ∉ (specScan en pF pP exts cP al files reads).2.1)
    ∧ (∀ (en : Bool) (pF pP exts cP files : List String)
        (reads : String → Except String String) (fs : List Finding),
        (fp, fs) ∉ (specScan en pF pP exts cP al files reads).2.2)
    ∧ (∀ (ln : Option Nat) (t : Option String), isSuppressed fp ln t al = true)
    ∧ (∀ (fp2 : String) (ln : Option Nat) (t : Option String) (al2 : Allowlist),
        isSuppressed fp2 ln t al2
          = (al2.files.contains fp2
            || al2.paths.any (fun e2 =>
                List.isPrefixOf e2.data fp2.data || (pyMatch e2 fp2).getD false)
            || (match ln with
                | some n => al2.lines.contains (fp2 ++ ":" ++ toString n)
                | none => false)
            || (match t with
                | some t0 => al2.patterns.any (fun p => (pySearch p t0).getD false)
                | none => false))) := by
  have hc : al.files.contains fp = true := List.elem_eq_true_of_mem hf
  have hsup : ∀ (ln : Option Nat) (t : Option String), isSuppressed fp ln t al = true := by
    intro ln t
    unfold isSuppressed
    rw [hc]
    rfl
  have hph : ∀ (pF pP files : List String) (r : String),
      (fp, r) ∉ specProhibitedHits pF pP al files := by
    intro pF pP files r h
    obtain ⟨f, hfmem, hsome⟩ := List.mem_filterMap.1 h
    have hfil := (List.mem_filter.1 hfmem).2
    have hfp : f = fp := by
      split at hsome
      · simp at hsome
        exact hsome.1
      · split at hsome
        · simp at hsome
          exact hsome.1
        · exact absurd hsome (by simp)
    rw [hfp, hsup none none] at hfil
    simp at hfil
  have hsf : ∀ (rd : Except String String) (cP2 : List String),
      specScanFile fp rd cP2 al = [] := by
    intro rd cP2
    unfold specScanFile
    rw [if_pos (hsup none none)]
  refine ⟨?_, ?_, hsup, fun fp2 ln t al2 => rfl⟩
  · intro en pF pP exts cP files reads r h
    rcases specScan_hits_cases en pF pP exts cP al files reads with he | he
    · rw [he] at h
      exact absurd h (List.not_mem_nil _)
    · rw [he] at h
      exact hph pF pP files r h
  · intro en pF pP exts cP files reads fs h
    rcases specScan_findings_cases en pF pP exts cP al files reads with he | he
    · rw [he] at h
      exact absurd h (List.not_mem_nil _)
    · rw [he] at h
      obtain ⟨f, hfk, hsome⟩ := List.mem_filterMap.1 h
      by_cases hempty : (specScanFile f (reads f) cP al).isEmpty = true
      · rw [if_pos hempty] at hsome
        exact absurd hsome (by simp)
      · rw [if_neg hempty] at hsome
        have hfp : f = fp := by
          simp at hsome
          exact hsome.1
        rw [hfp, hsf (reads fp) cP] at hempty
        exact hempty rfl

/-- Witness for `allowlist_files_suppress`: the allowlisted `w.py`
yields no ProhibitedHit even with secret content staged. -/
theorem allowlist_files_suppress_witness :
    ("w.py", "File should not be committed")
      ∉ (specScan true defaultProhibitedFiles defaultProhibitedPatterns
          defaultValidExtensions defaultPatterns ⟨["w.py"], [], [], []⟩
          ["w.py"] (fun _ => .ok "API_KEY = \"abc123\"")).2.1 :=
  (allowlist_files_suppress ⟨["w.py"], [], [], []⟩ "w.py"
    (List.mem_cons_self _ _)).1 true defaultProhibitedFiles
    defaultProhibitedPatterns defaultValidExtensions defaultPatterns
    ["w.py"] (fun _ => .ok "API_KEY = \"abc123\"") "File should not be committed"

/-! ### Helper lemmas about the prohibited-file stage and `main` -/

/-- `re.match` with a pattern that compiles returns a result. -/
theorem pyMatch_isSome (p : String) (hp : (parseRe p).isSome) (f : String) :
    ∃ b, pyMatch p f = some b := by
  obtain ⟨t, ht⟩ := Option.isSome_iff_exists.1 hp
  rcases t with ⟨r, ci, ng⟩
  exact ⟨_, by unfold pyMatch; rw [ht]⟩

/-- With only well-formed prohibited patterns, the pattern loop never
raises. -/
theorem prohibitScan_ok (f : String) :
    ∀ (pPats : List String), (∀ p ∈ pPats, (parseRe p).isSome) →
      ∃ r, prohibitScan f pPats = .ok r := by
  intro pPats
  induction pPats with
  | nil => intro _; exact ⟨none, rfl⟩
  | cons p rest ih =>
    intro hp
    obtain ⟨b, hb⟩ := pyMatch_isSome p (hp p (List.mem_cons_self _ _)) f
    cases b with
    | true =>
      exact ⟨some "File matches prohibited pattern", by simp [prohibitScan, hb]⟩
    | false =>
      obtain ⟨r, hr⟩ := ih (fun q hq => hp q (List.mem_cons_of_mem _ hq))
      exact ⟨r, by simp [prohibitScan, hb, hr]⟩

/-- With only well-formed prohibited patterns, `check_prohibited_files`
never raises for one file. -/
theorem prohibitReason_ok (pfv : JVal) (pPats : List String)
    (hp : ∀ p ∈ pPats, (parseRe p).isSome) (f : String) :
    ∃ r, prohibitReason pfv pPats f = .ok r := by
  unfold prohibitReason
  by_cases hbn : jHasStr pfv (basename f) = true
  · rw [if_pos hbn]; exact ⟨_, rfl⟩
  · rw [if_neg hbn]; exact prohibitScan_ok f pPats hp

/-- With only well-formed prohibited patterns, the file loop of
`check_prohibited_files` never raises. -/
theorem prohibitAll_ok (pfv : JVal) (pPats : List String)
    (hp : ∀ p ∈ pPats, (parseRe p).isSome) :
    ∀ files, ∃ hits, prohibitAll pfv pPats files = .ok hits := by
  intro files
  induction files with
  | nil => exact ⟨[], rfl⟩
  | cons f rest ih =>
    obtain ⟨hits, hh⟩ := ih
    obtain ⟨r, hr⟩ := prohibitReason_ok pfv pPats hp f
    cases r with
    | none => exact ⟨hits, by simp [prohibitAll, hr, hh]⟩
    | some reason => exact ⟨(f, reason) :: hits, by simp [prohibitAll, hr, hh]⟩

/-- A file with a prohibition reason yields a hit in the collected hit
list, wherever it sits in the file list. -/
theorem prohibitAll_mem (pfv : JVal) (pPats : List String)
    (hp : ∀ p ∈ pPats, (parseRe p).isSome) (f reason : String)
    (hr : prohibitReason pfv pPats f = .ok (some reason)) :
    ∀ files, f ∈ files →
      ∃ hits, prohibitAll pfv pPats files = .ok hits ∧ (f, reason) ∈ hits := by
  intro files
  induction files with
  | nil => intro h; exact absurd h (List.not_mem_nil f)
  | cons f0 rest ih =>
    intro hf
    rcases List.mem_cons.1 hf with h | h
    · subst h
      obtain ⟨hits, hh⟩ := prohibitAll_ok pfv pPats hp rest
      exact ⟨(f, reason) :: hits, by simp [prohibitAll, hr, hh],
        List.mem_cons_self _ _⟩
    · obtain ⟨hits, hh, hm⟩ := ih h
      obtain ⟨r0, hr0⟩ := prohibitReason_ok pfv pPats hp f0
      cases r0 with
      | none => exact ⟨hits, by simp [prohibitAll, hr0, hh], hm⟩
      | some reason0 =>
        exact ⟨(f0, reason0) :: hits, by simp [prohibitAll, hr0, hh],
          List.mem_cons_of_mem _ hm⟩

/-- When the prohibited-file stage collects at least one hit, `main`
exits 1 right there: no extension filtering and no content scan. -/
theorem mainRun_prohibited (config : Dict) (files : List String)
    (reads : String → Except String String)
    (he : (!jTruthy ((dictGet config "enabled").getD (.bool false))) = false)
    (hne : files.isEmpty = false) (hits : List (String × String))
    (hcfg : checkProhibitedFiles files config = .ok hits)
    (hhe : hits.isEmpty = false) :
    mainRun config files reads = ⟨1, false, false, hits, [], [], []⟩ := by
  unfold mainRun
  simp only [he, hne, hcfg, hhe]
  simp

/-- C6: a staged file named `id_rsa` is reported as a ProhibitedHit with
the exact-name reason under the default configuration, the run stops
with exit status 1, and no file is content-scanned (empty `scanned` and
`findings`);  the final conjunct states the general short-circuit: for
*any* configuration and file list with a non-empty hit list, the run
stops after the prohibited stage with a failing verdict. -/
theorem idRsa_blocks_run (files : List String)
    (reads : String → Except String String) (h : "id_rsa" ∈ files) :
    ("id_rsa", "File should not be committed")
      ∈ (mainRun DEFAULT_CONFIG files reads).prohibited
    ∧ (mainRun DEFAULT_CONFIG files reads).exitCode = 1
    ∧ (mainRun DEFAULT_CONFIG files reads).scanned = []
    ∧ (mainRun DEFAULT_CONFIG files reads).findings = []
    ∧ (∀ (config : Dict) (files2 : List String)
        (reads2 : String → Except String String) (hits2 : List (String × String)),
        (!jTruthy ((dictGet config "enabled").getD (.bool false))) = false →
        files2.isEmpty = false →
        checkProhibitedFiles files2 config = .ok hits2 →
        hits2.isEmpty = false →
        (mainRun config files2 reads2).exitCode = 1
          ∧ (mainRun config files2 reads2).scanned = []) := by
  have hp : ∀ p ∈ jStrList ((dictGet DEFAULT_CONFIG "prohibited_patterns").getD (.list [])),
      (parseRe p).isSome := by decide
  have hreason :
      prohibitReason ((dictGet DEFAULT_CONFIG "prohibited_files").getD (.list []))
        (jStrList ((dictGet DEFAULT_CONFIG "prohibited_patterns").getD (.list [])))
        "id_rsa" = .ok (some "File should not be committed") := by rfl
  obtain ⟨hits, hh, hm⟩ := prohibitAll_mem _ _ hp "id_rsa" _ hreason files h
  have hne : files.isEmpty = false := by
    cases files with
    | nil => exact absurd h (List.not_mem_nil _)
    | cons a l => rfl
  have hhe : hits.isEmpty = false := by
    cases hits with
    | nil => exact absurd hm (List.not_mem_nil _)
    | cons a l => rfl
  have hmain := mainRun_prohibited DEFAULT_CONFIG files reads rfl hne hits hh hhe
  rw [hmain]
  refine ⟨hm, rfl, rfl, rfl, ?_⟩
  intro config files2 reads2 hits2 he2 hne2 hcfg2 hhe2
  rw [mainRun_prohibited config files2 reads2 he2 hne2 hits2 hcfg2 hhe2]
  exact ⟨rfl, rfl⟩

/-- Witness for `idRsa_blocks_run` at the one-file list `["id_rsa"]`. -/
theorem idRsa_blocks_run_witness :
    ("id_rsa", "File should not be committed")
      ∈ (mainRun DEFAULT_CONFIG ["id_rsa"] (fun _ => .error "x")).prohibited
    ∧ (mainRun DEFAULT_CONFIG ["id_rsa"] (fun _ => .error "x")).exitCode = 1
    ∧ (mainRun DEFAULT_CONFIG ["id_rsa"] (fun _ => .error "x")).scanned = []
    ∧ (mainRun DEFAULT_CONFIG ["id_rsa"] (fun _ => .error "x")).findings = [] := by
  obtain ⟨h1, h2, h3, h4, _⟩ :=
    idRsa_blocks_run ["id_rsa"] (fun _ => .error "x") (List.mem_cons_self _ _)
  exact ⟨h1, h2, h3, h4⟩

/-- C5 counterexample.  With the malformed pattern `(` first in the
list, the scan of the file stops at it:  the remaining well-formed
`TOKEN` pattern matches the line (second conjunct), yet no finding at
all is produced (first conjunct) — the scan does not "skip only that
one pattern and continue with the rest". -/
theorem malformed_halts_remaining_patterns :
    scanFile "f.py" (.ok "TOKEN = \"y\"")
      ["(", "TOKEN\\s*=\\s*[\"\x27].*[\"\x27]"]
      = ([], [readWarn "f.py" "re.error in pattern ("])
    ∧ pyFindall "TOKEN\\s*=\\s*[\"\x27].*[\"\x27]" "TOKEN = \"y\""
      = some ["TOKEN = \"y\""] :=
  ⟨rfl, rfl⟩

end SecureGit
